import Mathlib

/-!
# LiveTracker backend: the in-memory store and its request handlers

A shallow embedding of `src/models/store.js` and of the handlers of
`src/routes/groups.js` that the claims are about.

* The three module-level `Map`s become the fields of an explicit `Store`
  value; every exported function takes the store and returns its result
  together with the store it leaves behind.
* A `Map` is the list of its entries in insertion order (`JsMap`).
* Instants are integers (milliseconds since the epoch).  The source keeps
  them as ISO strings and reads them back with `new Date(...)`; that
  round trip is the identity on valid time values.  Every reading of the
  clock that a call makes is a parameter of its own: `createGroup` reads
  the clock twice (`now` for `createdAt`, `now2` for `expiresAt`), the
  other calls once.
* Numbers other than instants are rationals, and their arithmetic is exact;
  the rounding of binary floating point is not modelled.
* `Math.random()` is a stream of fractions, read from a position on.
* A string-typed or boolean argument is printed by `console.log` without
  effect.  Where a JSON value of any type reaches a template literal (the
  `sharingEnabled` flag passed by the update handler), the conversion to a
  string can throw; `updateLocation.anyFlag` models that path.
-/

namespace LiveTracker

/-! ## JavaScript `Map` -/

/-- A `Map` with string keys: its entries, oldest insertion first. -/
abbrev JsMap (V : Type) := List (String × V)

namespace JsMap

variable {V : Type}

/-- `m.has(k)`. -/
def has (m : JsMap V) (k : String) : Bool :=
  m.any (fun e => e.1 == k)

/-- `m.get(k)`; `none` stands for `undefined`. -/
def get (m : JsMap V) (k : String) : Option V :=
  (m.find? (fun e => e.1 == k)).map Prod.snd

/-- `m.set(k, v)`: an existing key keeps its place, a new key goes last. -/
def set (m : JsMap V) (k : String) (v : V) : JsMap V :=
  if m.has k then m.map (fun e => if e.1 == k then (k, v) else e) else m ++ [(k, v)]

/-- `m.delete(k)`. -/
def delete (m : JsMap V) (k : String) : JsMap V :=
  m.filter (fun e => e.1 != k)

/-- `m.values()`, in insertion order. -/
def values (m : JsMap V) : List V :=
  m.map Prod.snd

/-- The keys, in insertion order. -/
def keys (m : JsMap V) : List String :=
  m.map Prod.fst

/-- The entries whose key passes `p`, in their order. -/
def filterKeys (m : JsMap V) (p : String → Bool) : JsMap V :=
  m.filter (fun e => p e.1)

/-- A list of entries stands for a `Map` when no key occurs twice. -/
def WF (m : JsMap V) : Prop :=
  m.keys.Nodup

end JsMap

/-! ## Records -/

/-- The record stored in `groups`. -/
structure Group where
  id : String
  name : String
  createdAt : Int
  expiresAt : Option Int
  refreshInterval : Int
  deriving DecidableEq, Repr

/-- The record stored in `members`. -/
structure Member where
  id : String
  groupId : String
  displayName : String
  createdAt : Int
  deriving DecidableEq, Repr

/-- A JSON value; `undefined` is an absent field or argument.  `object`
stands for an object or an array, and `printable` tells whether converting
it to a string returns: the conversion throws a `TypeError` for an object
such as `{"toString": null}`. -/
inductive JsValue where
  | undefined
  | null
  | boolean (b : Bool)
  | number (x : ℚ)
  | string (s : String)
  | object (printable : Bool)
  deriving DecidableEq, Repr

/-- Truthiness: `!v` is false.  A JSON number is never `NaN`. -/
def JsValue.truthy : JsValue → Bool
  | .undefined => false
  | .null => false
  | .boolean b => b
  | .number x => decide (x ≠ 0)
  | .string s => decide (s ≠ "")
  | .object _ => true

/-- Whether the template literal `${v}` returns a string. -/
def JsValue.printable : JsValue → Bool
  | .object p => p
  | _ => true

/-- How a call ends: it returns a value or it throws. -/
inductive Completion (α : Type) where
  | returned (value : α)
  | threw
  deriving DecidableEq, Repr

/-- The record stored in `locations`.  `sharingEnabled` holds whatever
value the caller passed. -/
structure Location where
  memberId : String
  groupId : String
  lat : ℚ
  lng : ℚ
  sharingEnabled : JsValue
  updatedAt : Int
  deriving DecidableEq, Repr

/-- An element of the array returned by `getGroupLocations`: the location's
fields and the display name. -/
structure GroupLocation where
  memberId : String
  groupId : String
  lat : ℚ
  lng : ℚ
  sharingEnabled : JsValue
  updatedAt : Int
  displayName : String
  deriving DecidableEq, Repr

/-- The module state: `groups`, `members`, `locations`. -/
structure Store where
  groups : JsMap Group
  members : JsMap Member
  locations : JsMap Location
  deriving DecidableEq, Repr

/-- The state when the module is loaded: three empty maps. -/
def Store.empty : Store :=
  { groups := [], members := [], locations := [] }

/-! ## Identifier generation -/

/-- One value of `Math.random()`: the fraction `num / den`. -/
structure RandomValue where
  num : Nat
  den : Nat
  deriving DecidableEq, Repr

/-- The value lies in `[0,1)`. -/
def RandomValue.inUnit (r : RandomValue) : Prop :=
  r.num < r.den

/-- `Math.floor(r * n)`. -/
def RandomValue.floorMul (r : RandomValue) (n : Nat) : Nat :=
  r.num * n / r.den

/-- The alphabet `chars` of `generateGroupId`. -/
def chars : String := "ABCDEFGHIJKLMNOPQRSTUVWXYZ0123456789"

/-- `s.charAt(k)`: the one-character string at index `k`, or the empty
string when `k` is out of range. -/
def charAt (s : String) (k : Nat) : String :=
  match s.data[k]? with
  | some c => String.singleton c
  | none => ""

/-- The `for` loop of `generateGroupId`: `n` more rounds of
`id += chars.charAt(Math.floor(Math.random() * chars.length))`, the random
values read from position `pos` on. -/
def generateGroupId.loop (rnd : Nat → RandomValue) : Nat → Nat → String → String
  | 0, _, id => id
  | n + 1, pos, id =>
    generateGroupId.loop rnd n (pos + 1) (id ++ charAt chars ((rnd pos).floorMul chars.length))

/-- `generateGroupId()`.  Each attempt reads six random values; `fuel` bounds
the number of attempts, and `none` means that all of them collided.  The
result is the id and the position of the next unread random value. -/
def generateGroupId (groups : JsMap Group) (rnd : Nat → RandomValue) :
    Nat → Nat → Option (String × Nat)
  | 0, _ => none
  | fuel + 1, pos =>
    let id := generateGroupId.loop rnd 6 pos ""
    if groups.has id then generateGroupId groups rnd fuel (pos + 6)
    else some (id, pos + 6)

/-! ## Group operations -/

/-- The largest magnitude of a valid time value (`8.64e15` ms). -/
def maxTime : ℚ := 8640000000000000

/-- The integer part of a number, as `new Date(t)` takes it: the fraction
is dropped, towards zero. -/
def truncate (t : ℚ) : Int :=
  if 0 ≤ t then ⌊t⌋ else ⌈t⌉

/-- `new Date(t).toISOString()` for a number `t`, read back as an instant:
`none` stands for the `RangeError` thrown on an invalid date. -/
def toISOString (t : ℚ) : Option Int :=
  if -maxTime ≤ t ∧ t ≤ maxTime then some (truncate t) else none

/-- The `expiresAt` field built by `createGroup` when `Date.now()` reads
`now2`: the outer `none` is the `RangeError`, the inner `none` is `null`.
A falsy `expiryDuration` (omitted, `null` or `0`) gives `null`. -/
def createGroup.expiresAt (expiryDuration : Option ℚ) (now2 : Int) : Option (Option Int) :=
  match expiryDuration with
  | none => some none
  | some h =>
    if h = 0 then some none
    else (toISOString ((now2 : ℚ) + h * 60 * 60 * 1000)).map some

/-- The body of `createGroup` after the id is drawn: `new Date()` reads
`now` for `createdAt`, then `Date.now()` reads `now2` for `expiresAt`. -/
def createGroup.withId (s : Store) (id : String) (name : Option String)
    (refreshInterval : Option Int) (expiryDuration : Option ℚ) (now now2 : Int) :
    Option (Group × Store) :=
  match createGroup.expiresAt expiryDuration now2 with
  | none => none
  | some expiresAt =>
    let group : Group :=
      { id := id
        name := match name with
          | some n => if n = "" then "Group " ++ id else n
          | none => "Group " ++ id
        createdAt := now
        expiresAt := expiresAt
        refreshInterval := refreshInterval.getD 30 }
    some (group, { s with groups := s.groups.set id group })

/-- `createGroup(name, refreshInterval = 30, expiryDuration = null)`;
`none` when the id generation runs out of fuel or the call throws. -/
def createGroup (s : Store) (name : Option String) (refreshInterval : Option Int)
    (expiryDuration : Option ℚ) (rnd : Nat → RandomValue) (fuel pos : Nat) (now now2 : Int) :
    Option (Group × Store) :=
  match generateGroupId s.groups rnd fuel pos with
  | none => none
  | some (id, _) => createGroup.withId s id name refreshInterval expiryDuration now now2

/-- `getGroup(groupId)`. -/
def getGroup (s : Store) (groupId : String) : Option Group :=
  s.groups.get groupId

/-- `groupExists(groupId)`. -/
def groupExists (s : Store) (groupId : String) : Bool :=
  s.groups.has groupId

/-! ## Member operations -/

/-- `addMember(groupId, memberId, displayName)`; `none` stands for `null`. -/
def addMember (s : Store) (groupId memberId displayName : String) (now : Int) :
    Option Member × Store :=
  if !groupExists s groupId then (none, s)
  else
    let member : Member :=
      { id := memberId, groupId := groupId, displayName := displayName, createdAt := now }
    (some member, { s with members := s.members.set memberId member })

/-- `getMember(memberId)`. -/
def getMember (s : Store) (memberId : String) : Option Member :=
  s.members.get memberId

/-- `getGroupMembers(groupId)`. -/
def getGroupMembers (s : Store) (groupId : String) : List Member :=
  s.members.values.filter (fun member => member.groupId == groupId)

/-! ## Location operations -/

/-- `updateLocation(memberId, groupId, lat, lng, sharingEnabled = true)` for
a flag of its declared type, a boolean or omitted; `none` stands for
`null`.  With such a flag the call never throws. -/
def updateLocation (s : Store) (memberId groupId : String) (lat lng : ℚ)
    (sharingEnabled : Option Bool) (now : Int) : Option Location × Store :=
  match getMember s memberId with
  | none => (none, s)
  | some member =>
    if member.groupId != groupId then (none, s)
    else
      let existingLocation := s.locations.get memberId
      let location : Location :=
        { memberId := memberId
          groupId := groupId
          lat := lat
          lng := lng
          sharingEnabled := JsValue.boolean (sharingEnabled.getD true)
          updatedAt := match existingLocation with
            | some existing => existing.updatedAt
            | none => now }
      (some location, { s with locations := s.locations.set memberId location })

/-- `updateLocation(memberId, groupId, lat, lng, sharingEnabled = true)` for
a flag that is any JSON value.  The record is stored first; then
`console.log` converts the flag to a string, and the call throws when that
conversion does. -/
def updateLocation.anyFlag (s : Store) (memberId groupId : String) (lat lng : ℚ)
    (sharingEnabled : JsValue) (now : Int) : Completion (Option Location) × Store :=
  match getMember s memberId with
  | none => (.returned none, s)
  | some member =>
    if member.groupId != groupId then (.returned none, s)
    else
      let flag := if sharingEnabled = JsValue.undefined then JsValue.boolean true
        else sharingEnabled
      let existingLocation := s.locations.get memberId
      let location : Location :=
        { memberId := memberId
          groupId := groupId
          lat := lat
          lng := lng
          sharingEnabled := flag
          updatedAt := match existingLocation with
            | some existing => existing.updatedAt
            | none => now }
      if flag.printable then
        (.returned (some location), { s with locations := s.locations.set memberId location })
      else (.threw, { s with locations := s.locations.set memberId location })

/-- `getGroupLocations(groupId)`. -/
def getGroupLocations (s : Store) (groupId : String) : List GroupLocation :=
  (s.locations.values.filter (fun location => location.groupId == groupId)).map
    (fun location =>
      { memberId := location.memberId
        groupId := location.groupId
        lat := location.lat
        lng := location.lng
        sharingEnabled :=
          if location.sharingEnabled = JsValue.undefined then JsValue.boolean true
          else location.sharingEnabled
        updatedAt := location.updatedAt
        displayName := match getMember s location.memberId with
          | some member => member.displayName
          | none => "Unknown" })

/-! ## Deletion and the two sweeps -/

/-- `deleteGroup(groupId)`. -/
def deleteGroup (s : Store) (groupId : String) : Bool × Store :=
  if !groupExists s groupId then (false, s)
  else
    let groupMembers := getGroupMembers s groupId
    let s1 := groupMembers.foldl
      (fun (st : Store) member =>
        { st with members := st.members.delete member.id
                  locations := st.locations.delete member.id })
      s
    (true, { s1 with groups := s1.groups.delete groupId })

/-- `cleanupInactiveMembers(inactiveThresholdMs = 5 * 60 * 1000)`.  The
loop deletes only the entry it is visiting, so it visits the entries the
map held when the loop began. -/
def cleanupInactiveMembers (s : Store) (inactiveThresholdMs : Option Int) (now : Int) :
    Nat × Store :=
  let threshold := inactiveThresholdMs.getD (5 * 60 * 1000)
  s.locations.foldl
    (fun (acc : Nat × Store) entry =>
      if now - entry.2.updatedAt > threshold then
        (acc.1 + 1, { acc.2 with locations := acc.2.locations.delete entry.1 })
      else acc)
    (0, s)

/-- `cleanupExpiredGroups()`.  `deleteGroup(groupId)` removes from `groups`
only the entry being visited, so the loop visits the entries the map held
when the loop began. -/
def cleanupExpiredGroups (s : Store) (now : Int) : Nat × Store :=
  s.groups.foldl
    (fun (acc : Nat × Store) entry =>
      match entry.2.expiresAt with
      | some expiresAt =>
        if expiresAt < now then (acc.1 + 1, (deleteGroup acc.2 entry.1).2) else acc
      | none => acc)
    (0, s)

/-! ## Reachable states and the store invariant -/

/-- Repeated expiry sweeps, one for each clock reading in the list. -/
def cleanupExpiredGroups.sweeps (s : Store) : List Int → Store
  | [] => s
  | now :: rest => cleanupExpiredGroups.sweeps (cleanupExpiredGroups s now).2 rest

/-- The states that calls of the exported operations produce from the
freshly loaded module.  A `createGroup` call counts when it returns. -/
inductive Reachable : Store → Prop
  | empty : Reachable Store.empty
  | createGroup {s : Store} (name : Option String) (refreshInterval : Option Int)
      (expiryDuration : Option ℚ) (rnd : Nat → RandomValue) (fuel pos : Nat) (now now2 : Int)
      {g : Group} {s' : Store} :
      Reachable s → (∀ i, (rnd i).inUnit) →
      LiveTracker.createGroup s name refreshInterval expiryDuration rnd fuel pos now now2
        = some (g, s') →
      Reachable s'
  | addMember {s : Store} (groupId memberId displayName : String) (now : Int) :
      Reachable s → Reachable (LiveTracker.addMember s groupId memberId displayName now).2
  | updateLocation {s : Store} (memberId groupId : String) (lat lng : ℚ)
      (sharingEnabled : Option Bool) (now : Int) :
      Reachable s →
      Reachable (LiveTracker.updateLocation s memberId groupId lat lng sharingEnabled now).2
  | updateLocationAnyFlag {s : Store} (memberId groupId : String) (lat lng : ℚ)
      (sharingEnabled : JsValue) (now : Int) :
      Reachable s →
      Reachable
        (LiveTracker.updateLocation.anyFlag s memberId groupId lat lng sharingEnabled now).2
  | deleteGroup {s : Store} (groupId : String) :
      Reachable s → Reachable (LiveTracker.deleteGroup s groupId).2
  | cleanupInactiveMembers {s : Store} (inactiveThresholdMs : Option Int) (now : Int) :
      Reachable s → Reachable (LiveTracker.cleanupInactiveMembers s inactiveThresholdMs now).2
  | cleanupExpiredGroups {s : Store} (now : Int) :
      Reachable s → Reachable (LiveTracker.cleanupExpiredGroups s now).2

/-- What every reachable store satisfies: the three lists are maps, every
record is filed under its own id, every location has a member, every
member has a group, and no stored flag is `undefined`. -/
structure Inv (s : Store) : Prop where
  groupsWF : JsMap.WF s.groups
  membersWF : JsMap.WF s.members
  locationsWF : JsMap.WF s.locations
  groupKey : ∀ e ∈ s.groups, e.2.id = e.1
  memberKey : ∀ e ∈ s.members, e.2.id = e.1
  locationKey : ∀ e ∈ s.locations, e.2.memberId = e.1
  locationMember : ∀ e ∈ s.locations, JsMap.has s.members e.1 = true
  memberGroup : ∀ e ∈ s.members, JsMap.has s.groups e.2.groupId = true
  locationFlag : ∀ e ∈ s.locations, e.2.sharingEnabled ≠ JsValue.undefined

/-! ## A concrete run

Two groups are created, `m1` joins the first and shares a position, then
joins the second under the same member id. -/

namespace Scenario

/-- Random values whose first six give `A` and all later ones `B`. -/
def rnd : Nat → RandomValue :=
  fun i => { num := if i < 6 then 0 else 1, den := 36 }

/-- The group created first. -/
def groupA : Group :=
  { id := "AAAAAA", name := "Trip", createdAt := 1000, expiresAt := none, refreshInterval := 10 }

/-- The group created second. -/
def groupB : Group :=
  { id := "BBBBBB", name := "Group BBBBBB", createdAt := 1500, expiresAt := none,
    refreshInterval := 30 }

/-- After `createGroup("Trip", 10)`. -/
def oneGroup : Store :=
  { groups := [("AAAAAA", groupA)], members := [], locations := [] }

/-- After a second `createGroup()`. -/
def twoGroups : Store :=
  { groups := [("AAAAAA", groupA), ("BBBBBB", groupB)], members := [], locations := [] }

/-- After `addMember("AAAAAA", "m1", "Alice")`. -/
def joined : Store :=
  { twoGroups with
    members := [("m1", { id := "m1", groupId := "AAAAAA", displayName := "Alice",
                         createdAt := 2000 })] }

/-- After `updateLocation("m1", "AAAAAA", 37, -122)` at time 3000. -/
def shared : Store :=
  { joined with
    locations := [("m1", { memberId := "m1", groupId := "AAAAAA", lat := 37, lng := -122,
                           sharingEnabled := .boolean true, updatedAt := 3000 })] }

/-- After `addMember("BBBBBB", "m1", "Alice")`: the member record now names
the second group, the location record still names the first. -/
def rejoined : Store :=
  { shared with
    members := [("m1", { id := "m1", groupId := "BBBBBB", displayName := "Alice",
                         createdAt := 4000 })] }

/-- The group that `createGroup(undefined, undefined, 0)` builds at time
1000 from the first six random values. -/
def groupZero : Group :=
  { id := "AAAAAA", name := "Group AAAAAA", createdAt := 1000, expiresAt := none,
    refreshInterval := 30 }

/-- The store holding `groupZero` alone. -/
def zeroHours : Store :=
  { groups := [("AAAAAA", groupZero)], members := [], locations := [] }

/-- The group that `createGroup(undefined, undefined, 2)` builds at time
1000 from the first six random values: it expires two hours later. -/
def groupTimed : Group :=
  { id := "AAAAAA", name := "Group AAAAAA", createdAt := 1000, expiresAt := some 7201000,
    refreshInterval := 30 }

/-- The store holding `groupTimed` alone. -/
def timedGroup : Store :=
  { groups := [("AAAAAA", groupTimed)], members := [], locations := [] }

/-- After `addMember("AAAAAA", "m1", "Alice")` and
`updateLocation("m1", "AAAAAA", 37, -122)` on `timedGroup`. -/
def timedShared : Store :=
  { timedGroup with
    members := [("m1", { id := "m1", groupId := "AAAAAA", displayName := "Alice",
                         createdAt := 2000 })]
    locations := [("m1", { memberId := "m1", groupId := "AAAAAA", lat := 37, lng := -122,
                           sharingEnabled := .boolean true, updatedAt := 3000 })] }

end Scenario

/-! ## Sequences of calls and the predicates of the sweeps -/

/-- One call of an exported function that can change the store, with its
arguments and the clock readings it takes. -/
inductive Call where
  | createGroup (name : Option String) (refreshInterval : Option Int)
      (expiryDuration : Option ℚ) (rnd : Nat → RandomValue) (fuel pos : Nat) (now now2 : Int)
  | addMember (groupId memberId displayName : String) (now : Int)
  | updateLocation (memberId groupId : String) (lat lng : ℚ) (sharingEnabled : JsValue)
      (now : Int)
  | deleteGroup (groupId : String)
  | cleanupInactiveMembers (inactiveThresholdMs : Option Int) (now : Int)
  | cleanupExpiredGroups (now : Int)

/-- The store that a call leaves.  A `createGroup` that does not return
leaves the store as it was, since it writes only in its last step; an
`updateLocation` that throws has written before. -/
def Call.run (s : Store) : Call → Store
  | .createGroup name refreshInterval expiryDuration rnd fuel pos now now2 =>
    match LiveTracker.createGroup s name refreshInterval expiryDuration rnd fuel pos now now2 with
    | some (_, s') => s'
    | none => s
  | .addMember groupId memberId displayName now =>
    (LiveTracker.addMember s groupId memberId displayName now).2
  | .updateLocation memberId groupId lat lng sharingEnabled now =>
    (LiveTracker.updateLocation.anyFlag s memberId groupId lat lng sharingEnabled now).2
  | .deleteGroup groupId => (LiveTracker.deleteGroup s groupId).2
  | .cleanupInactiveMembers inactiveThresholdMs now =>
    (LiveTracker.cleanupInactiveMembers s inactiveThresholdMs now).2
  | .cleanupExpiredGroups now => (LiveTracker.cleanupExpiredGroups s now).2

/-- The store that a sequence of calls leaves. -/
def Call.runAll (s : Store) (calls : List Call) : Store :=
  calls.foldl Call.run s

/-- Calls that follow the first share of `m1` in the concrete run: another
member joins the second group and shares a position, `m1` pushes new
coordinates twice, both sweeps run, the second group is deleted and a new
group is created. -/
def Scenario.later : List Call :=
  [ .addMember "BBBBBB" "m2" "Bob" 4000,
    .updateLocation "m2" "BBBBBB" 10 20 (.boolean true) 5000,
    .updateLocation "m1" "AAAAAA" 38 (-123) .undefined 200000,
    .cleanupInactiveMembers (some 300000) 250000,
    .deleteGroup "BBBBBB",
    .updateLocation "m1" "AAAAAA" 39 (-124) (.boolean false) 400000,
    .cleanupExpiredGroups 400000,
    .createGroup none none none Scenario.rnd 2 0 400000 400000 ]

/-- The test of `cleanupExpiredGroups` on a group:
`group.expiresAt && new Date(group.expiresAt) < now`. -/
def Group.isExpired (group : Group) (now : Int) : Bool :=
  match group.expiresAt with
  | some expiresAt => decide (expiresAt < now)
  | none => false

/-- The test of `cleanupInactiveMembers` on a location:
`now - lastUpdate > inactiveThresholdMs`. -/
def Location.isInactive (location : Location) (inactiveThresholdMs : Option Int) (now : Int) :
    Bool :=
  decide (now - location.updatedAt > inactiveThresholdMs.getD (5 * 60 * 1000))

/-! ## Request handlers (`src/routes/groups.js`)

A handler takes the store, the route parameter and the fields it reads from
the JSON body, and returns the response together with the store it leaves.
The fields that the update handler reads (`memberId`, `lat`, `lng`,
`sharingEnabled`) are arbitrary JSON values; the ids and names that the
join handler reads are either absent or strings.  The `catch` branches are
taken where the handler would dereference `null` or `undefined` and where
`updateLocation` throws. -/

/-- The JSON body of a response. -/
inductive ResponseBody where
  | error (error : String)
  | deleted (message : String)
  | location (memberId : String) (lat lng : ℚ) (sharingEnabled : JsValue) (updatedAt : Int)
  | joined (memberId displayName memberGroupId : String) (groupId name : String)
      (refreshInterval : Int) (expiresAt : Option Int)
  deriving DecidableEq, Repr

/-- The status and the body passed to `res.status(...).json(...)`. -/
structure Response where
  status : Nat
  body : ResponseBody
  deriving DecidableEq, Repr

namespace Routes

/-- The handler of `POST /groups/:groupId/locations`.  The maps of the
store have string keys, so `updateLocation` finds no member under a
`memberId` that is not a string and returns `null`. -/
def postLocations (s : Store) (groupId : String) (memberId lat lng sharingEnabled : JsValue)
    (now : Int) : Response × Store :=
  if memberId.truthy = false ∨ lat = JsValue.undefined ∨ lng = JsValue.undefined then
    ({ status := 400, body := .error "memberId, lat, and lng are required" }, s)
  else
    match lat, lng with
    | .number x, .number y =>
      if x < -90 ∨ x > 90 ∨ y < -180 ∨ y > 180 then
        ({ status := 400, body := .error "Invalid coordinates" }, s)
      else
        match memberId with
        | .string m =>
          match updateLocation.anyFlag s m groupId x y
              (if sharingEnabled ≠ JsValue.undefined then sharingEnabled
                else JsValue.boolean true) now with
          | (.returned none, s') =>
            ({ status := 404, body := .error "Member not found in this group" }, s')
          | (.returned (some location), s') =>
            ({ status := 200
               body := .location location.memberId location.lat location.lng
                 location.sharingEnabled location.updatedAt }, s')
          | (.threw, s') =>
            ({ status := 500, body := .error "Failed to update location" }, s')
        | _ => ({ status := 404, body := .error "Member not found in this group" }, s)
    | _, _ => ({ status := 400, body := .error "lat and lng must be numbers" }, s)

/-- The handler of `DELETE /groups/:groupId`. -/
def deleteGroup (s : Store) (groupId : String) : Response × Store :=
  if !groupExists s groupId then
    ({ status := 404, body := .error "Group not found" }, s)
  else
    match LiveTracker.deleteGroup s groupId with
    | (true, s') => ({ status := 200, body := .deleted "Group deleted successfully" }, s')
    | (false, s') => ({ status := 500, body := .error "Failed to delete group" }, s')

/-- The handler of `POST /groups/:groupId/join`.  Reading a field of a
`null` member or of an `undefined` group throws, and the `catch` branch
answers 500. -/
def postJoin (s : Store) (groupId : String) (memberId displayName : Option String)
    (now : Int) : Response × Store :=
  match memberId, displayName with
  | some m, some d =>
    if m = "" ∨ d = "" then
      ({ status := 400, body := .error "memberId and displayName are required" }, s)
    else if !groupExists s groupId then
      ({ status := 404
         body := .error "Group not found. Please check the group ID and try again." }, s)
    else
      match addMember s groupId m d now with
      | (none, s') => ({ status := 500, body := .error "Failed to join group" }, s')
      | (some member, s') =>
        match getGroup s' groupId with
        | none => ({ status := 500, body := .error "Failed to join group" }, s')
        | some group =>
          ({ status := 200
             body := .joined member.id member.displayName member.groupId group.id group.name
               group.refreshInterval group.expiresAt }, s')
  | _, _ => ({ status := 400, body := .error "memberId and displayName are required" }, s)

end Routes

/-! ## Facts about `JsMap` -/

namespace JsMap

variable {V : Type}

theorem has_nil (k : String) : JsMap.has ([] : JsMap V) k = false := rfl

theorem has_cons (e : String × V) (m : JsMap V) (k : String) :
    JsMap.has (e :: m) k = (e.1 == k || JsMap.has m k) := rfl

theorem get_nil (k : String) : JsMap.get ([] : JsMap V) k = none := rfl

theorem get_cons (e : String × V) (m : JsMap V) (k : String) :
    JsMap.get (e :: m) k = if e.1 = k then some e.2 else JsMap.get m k := by
  by_cases h : e.1 = k <;> simp [JsMap.get, List.find?_cons, h]

theorem delete_cons (e : String × V) (m : JsMap V) (k : String) :
    JsMap.delete (e :: m) k = if e.1 = k then JsMap.delete m k else e :: JsMap.delete m k := by
  by_cases h : e.1 = k <;> simp [JsMap.delete, List.filter_cons, h]

theorem keys_cons (e : String × V) (m : JsMap V) :
    JsMap.keys (e :: m) = e.1 :: JsMap.keys m := rfl

theorem mem_keys_iff (m : JsMap V) (k : String) : k ∈ JsMap.keys m ↔ ∃ v, (k, v) ∈ m := by
  simp [JsMap.keys]

theorem has_iff_mem_keys (m : JsMap V) (k : String) :
    JsMap.has m k = true ↔ k ∈ JsMap.keys m := by
  induction m with
  | nil => simp [has_nil, JsMap.keys]
  | cons e m ih =>
    rw [has_cons, keys_cons, Bool.or_eq_true, ih, List.mem_cons, beq_iff_eq]
    constructor
    · rintro (h | h)
      · exact Or.inl h.symm
      · exact Or.inr h
    · rintro (h | h)
      · exact Or.inl h.symm
      · exact Or.inr h

theorem has_iff_exists_mem (m : JsMap V) (k : String) :
    JsMap.has m k = true ↔ ∃ v, (k, v) ∈ m := by
  rw [has_iff_mem_keys, mem_keys_iff]

theorem get_eq_none_iff (m : JsMap V) (k : String) :
    JsMap.get m k = none ↔ JsMap.has m k = false := by
  induction m with
  | nil => simp [get_nil, has_nil]
  | cons e m ih =>
    rw [get_cons, has_cons]
    by_cases h : e.1 = k
    · simp [h]
    · simp [h, ih]

theorem has_of_get (m : JsMap V) (k : String) (v : V) (h : JsMap.get m k = some v) :
    JsMap.has m k = true := by
  cases hh : JsMap.has m k with
  | true => rfl
  | false => rw [(get_eq_none_iff m k).mpr hh] at h; cases h

theorem get_of_has (m : JsMap V) (k : String) (h : JsMap.has m k = true) :
    ∃ v, JsMap.get m k = some v := by
  cases hg : JsMap.get m k with
  | some v => exact ⟨v, rfl⟩
  | none => rw [(get_eq_none_iff m k).mp hg] at h; cases h

theorem mem_of_get (m : JsMap V) (k : String) (v : V) (h : JsMap.get m k = some v) :
    (k, v) ∈ m := by
  induction m with
  | nil => cases h
  | cons e m ih =>
    rw [get_cons] at h
    by_cases he : e.1 = k
    · rw [if_pos he] at h
      have h2 : e.2 = v := Option.some.inj h
      have : e = (k, v) := Prod.ext he h2
      rw [this]
      exact List.mem_cons_self _ _
    · rw [if_neg he] at h
      exact List.mem_cons_of_mem _ (ih h)

theorem get_of_mem (m : JsMap V) (hm : JsMap.WF m) (k : String) (v : V) (h : (k, v) ∈ m) :
    JsMap.get m k = some v := by
  induction m with
  | nil => cases h
  | cons e m ih =>
    have hnd : e.1 ∉ JsMap.keys m ∧ (JsMap.keys m).Nodup := List.nodup_cons.mp hm
    rw [get_cons]
    rcases List.mem_cons.mp h with h | h
    · rw [← h]
      simp
    · have hk : e.1 ≠ k := by
        intro he
        apply hnd.1
        rw [he, mem_keys_iff]
        exact ⟨v, h⟩
      rw [if_neg hk]
      exact ih hnd.2 h

theorem mem_delete (m : JsMap V) (k : String) (e : String × V) :
    e ∈ JsMap.delete m k ↔ e ∈ m ∧ e.1 ≠ k := by
  simp [JsMap.delete]

theorem has_delete_self (m : JsMap V) (k : String) : JsMap.has (JsMap.delete m k) k = false := by
  cases h : JsMap.has (JsMap.delete m k) k with
  | false => rfl
  | true =>
    obtain ⟨v, hv⟩ := (has_iff_exists_mem _ _).mp h
    exact absurd rfl ((mem_delete m k (k, v)).mp hv).2

theorem get_delete_of_ne (m : JsMap V) (k k' : String) (h : k' ≠ k) :
    JsMap.get (JsMap.delete m k) k' = JsMap.get m k' := by
  induction m with
  | nil => rfl
  | cons e m ih =>
    rw [delete_cons, get_cons]
    by_cases he : e.1 = k
    · have h3 : ¬ e.1 = k' := by rw [he]; exact fun h2 => h h2.symm
      rw [if_pos he, if_neg h3, ih]
    · rw [if_neg he, get_cons, ih]

theorem has_eq_of_get_eq (m m' : JsMap V) (k : String) (h : JsMap.get m k = JsMap.get m' k) :
    JsMap.has m k = JsMap.has m' k := by
  cases h1 : JsMap.has m k with
  | true =>
    obtain ⟨v, hv⟩ := get_of_has m k h1
    rw [h] at hv
    exact (has_of_get m' k v hv).symm
  | false =>
    have := (get_eq_none_iff m k).mpr h1
    rw [h] at this
    exact ((get_eq_none_iff m' k).mp this).symm

theorem has_delete_of_ne (m : JsMap V) (k k' : String) (h : k' ≠ k) :
    JsMap.has (JsMap.delete m k) k' = JsMap.has m k' :=
  has_eq_of_get_eq _ _ _ (get_delete_of_ne m k k' h)

theorem keys_delete (m : JsMap V) (k : String) :
    JsMap.keys (JsMap.delete m k) = (JsMap.keys m).filter (fun x => x != k) := by
  induction m with
  | nil => rfl
  | cons e m ih =>
    rw [delete_cons, keys_cons, List.filter_cons]
    by_cases he : e.1 = k
    · simp [he, ih]
    · simp [he, ih, keys_cons]

theorem wf_delete (m : JsMap V) (k : String) (h : JsMap.WF m) : JsMap.WF (JsMap.delete m k) := by
  unfold JsMap.WF at *
  rw [keys_delete]
  exact h.filter _

theorem keys_set (m : JsMap V) (k : String) (v : V) :
    JsMap.keys (JsMap.set m k v) = if JsMap.has m k then JsMap.keys m else JsMap.keys m ++ [k] := by
  unfold JsMap.set
  split
  · clear * -
    induction m with
    | nil => rfl
    | cons e m ih =>
      rw [List.map_cons, keys_cons, keys_cons, ih]
      by_cases he : e.1 = k <;> simp [he]
  · simp [JsMap.keys]

theorem wf_set (m : JsMap V) (k : String) (v : V) (h : JsMap.WF m) :
    JsMap.WF (JsMap.set m k v) := by
  unfold JsMap.WF at *
  rw [keys_set]
  split
  · exact h
  · rename_i hk
    have hk2 : k ∉ JsMap.keys m := fun hmem => hk ((has_iff_mem_keys m k).mpr hmem)
    rw [List.nodup_append]
    refine ⟨h, List.nodup_singleton k, ?_⟩
    intro a ha hb
    rw [List.mem_singleton] at hb
    subst hb
    exact hk2 ha

theorem mem_set (m : JsMap V) (k : String) (v : V) (e : String × V)
    (h : e ∈ JsMap.set m k v) : e = (k, v) ∨ (e ∈ m ∧ e.1 ≠ k) := by
  unfold JsMap.set at h
  split at h
  · obtain ⟨a, ha, rfl⟩ := List.mem_map.mp h
    by_cases hk : a.1 = k
    · simp [hk]
    · simp [hk, ha]
  · rename_i hk
    rcases List.mem_append.mp h with h | h
    · right
      refine ⟨h, fun he => hk ?_⟩
      rw [has_iff_exists_mem]
      exact ⟨e.2, by rw [← he]; exact h⟩
    · left
      simpa using h

theorem get_set_self (m : JsMap V) (k : String) (v : V) :
    JsMap.get (JsMap.set m k v) k = some v := by
  unfold JsMap.set
  split
  · rename_i hk
    induction m with
    | nil => cases hk
    | cons e m ih =>
      rw [List.map_cons, get_cons]
      by_cases he : e.1 = k
      · simp [he]
      · have hk2 : JsMap.has m k = true := by
          rw [has_cons] at hk
          simpa [he] using hk
        have h2 := ih hk2
        simp only [beq_iff_eq] at h2
        simp [he, h2]
  · rename_i hk
    have hk2 : JsMap.has m k = false := by simpa using hk
    clear hk
    induction m with
    | nil => simp [JsMap.get]
    | cons e m ih =>
      rw [has_cons] at hk2
      have he : ¬ e.1 = k := by
        intro he
        simp [he] at hk2
      have hk3 : JsMap.has m k = false := by simpa [he] using hk2
      rw [List.cons_append, get_cons, if_neg he]
      exact ih hk3

theorem get_set_of_ne (m : JsMap V) (k : String) (v : V) (k' : String) (h : k' ≠ k) :
    JsMap.get (JsMap.set m k v) k' = JsMap.get m k' := by
  have hkk : ¬ k = k' := fun h2 => h h2.symm
  unfold JsMap.set
  split
  · clear * - hkk
    induction m with
    | nil => rfl
    | cons e m ih =>
      rw [List.map_cons, get_cons, get_cons, ih]
      by_cases he : e.1 = k
      · have h3 : ¬ e.1 = k' := by rw [he]; exact hkk
        simp [he, hkk, h3]
      · simp [he]
  · clear * - hkk
    induction m with
    | nil => simp [JsMap.get, hkk]
    | cons e m ih =>
      rw [List.cons_append, get_cons, get_cons, ih]

theorem has_set (m : JsMap V) (k : String) (v : V) (k' : String) :
    JsMap.has (JsMap.set m k v) k' = (JsMap.has m k' || k' == k) := by
  by_cases h : k' = k
  · subst h
    simp [has_of_get _ _ _ (get_set_self m k' v)]
  · rw [has_eq_of_get_eq _ _ _ (get_set_of_ne m k v k' h)]
    simp [h]

theorem delete_eq_filterKeys (m : JsMap V) (k : String) :
    JsMap.delete m k = JsMap.filterKeys m (fun x => x != k) := rfl

theorem filterKeys_cons (e : String × V) (m : JsMap V) (p : String → Bool) :
    JsMap.filterKeys (e :: m) p =
      if p e.1 = true then e :: JsMap.filterKeys m p else JsMap.filterKeys m p := by
  by_cases h : p e.1 = true <;> simp [JsMap.filterKeys, List.filter_cons, h]

theorem mem_filterKeys (m : JsMap V) (p : String → Bool) (e : String × V) :
    e ∈ JsMap.filterKeys m p ↔ e ∈ m ∧ p e.1 = true := by
  simp [JsMap.filterKeys]

theorem get_filterKeys (m : JsMap V) (p : String → Bool) (k : String) :
    JsMap.get (JsMap.filterKeys m p) k = if p k = true then JsMap.get m k else none := by
  induction m with
  | nil => simp [JsMap.filterKeys, get_nil]
  | cons e m ih =>
    rw [filterKeys_cons, get_cons]
    by_cases hp : p e.1 = true
    · rw [if_pos hp, get_cons, ih]
      by_cases he : e.1 = k
      · rw [if_pos he, if_pos he]
        rw [he] at hp
        rw [if_pos hp]
      · rw [if_neg he, if_neg he]
    · rw [if_neg hp, ih]
      by_cases he : e.1 = k
      · rw [if_pos he]
        rw [he] at hp
        rw [if_neg hp, if_neg hp]
      · rw [if_neg he]

theorem has_filterKeys (m : JsMap V) (p : String → Bool) (k : String) :
    JsMap.has (JsMap.filterKeys m p) k = (p k && JsMap.has m k) := by
  cases hp : p k with
  | false =>
    have : JsMap.get (JsMap.filterKeys m p) k = none := by
      rw [get_filterKeys]; simp [hp]
    simpa using (get_eq_none_iff _ _).mp this
  | true =>
    have : JsMap.get (JsMap.filterKeys m p) k = JsMap.get m k := by
      rw [get_filterKeys]; simp [hp]
    simpa using has_eq_of_get_eq _ _ _ this

theorem keys_filterKeys (m : JsMap V) (p : String → Bool) :
    JsMap.keys (JsMap.filterKeys m p) = (JsMap.keys m).filter p := by
  induction m with
  | nil => rfl
  | cons e m ih =>
    rw [filterKeys_cons, keys_cons, List.filter_cons]
    by_cases hp : p e.1 = true
    · rw [if_pos hp, if_pos hp, keys_cons, ih]
    · rw [if_neg hp, if_neg hp, ih]

theorem wf_filterKeys (m : JsMap V) (p : String → Bool) (h : JsMap.WF m) :
    JsMap.WF (JsMap.filterKeys m p) := by
  unfold JsMap.WF at *
  rw [keys_filterKeys]
  exact h.filter _

theorem filterKeys_filterKeys (m : JsMap V) (p q : String → Bool) :
    JsMap.filterKeys (JsMap.filterKeys m p) q = JsMap.filterKeys m (fun x => p x && q x) := by
  simp [JsMap.filterKeys, List.filter_filter, Bool.and_comm]

theorem filterKeys_true (m : JsMap V) (p : String → Bool) (h : ∀ e ∈ m, p e.1 = true) :
    JsMap.filterKeys m p = m := by
  unfold JsMap.filterKeys
  rw [List.filter_eq_self]
  exact h

theorem filterKeys_congr (m : JsMap V) (p q : String → Bool) (h : ∀ e ∈ m, p e.1 = q e.1) :
    JsMap.filterKeys m p = JsMap.filterKeys m q := by
  unfold JsMap.filterKeys
  apply List.filter_congr
  exact h

theorem eq_of_mem_of_mem (m : JsMap V) (hm : JsMap.WF m) (k : String) (v w : V)
    (hv : (k, v) ∈ m) (hw : (k, w) ∈ m) : v = w := by
  have h1 := get_of_mem m hm k v hv
  have h2 := get_of_mem m hm k w hw
  rw [h1] at h2
  exact Option.some.inj h2

end JsMap

/-- A property kept by every step of a left fold holds of its result. -/
theorem foldl_invariant {α β : Type} (P : β → Prop) (f : β → α → β) (l : List α) (init : β)
    (h0 : P init) (hstep : ∀ acc e, e ∈ l → P acc → P (f acc e)) : P (l.foldl f init) := by
  induction l generalizing init with
  | nil => exact h0
  | cons a l ih =>
    rw [List.foldl_cons]
    apply ih
    · exact hstep init a (List.mem_cons_self _ _) h0
    · intro acc e he hacc
      exact hstep acc e (List.mem_cons_of_mem _ he) hacc

/-! ## Facts about the operations -/

theorem mem_getGroupMembers (s : Store) (g : String) (member : Member) :
    member ∈ getGroupMembers s g ↔
      (∃ k, (k, member) ∈ s.members) ∧ member.groupId = g := by
  simp [getGroupMembers, JsMap.values]

/-- The loop of `deleteGroup` removes, from `members` and from `locations`,
the entries filed under the ids of the listed members. -/
theorem deleteGroup_loop (ms : List Member) (st : Store) :
    ms.foldl
        (fun (st : Store) member =>
          { st with members := st.members.delete member.id
                    locations := st.locations.delete member.id })
        st
      = { groups := st.groups
          members := JsMap.filterKeys st.members (fun k => !(ms.map Member.id).contains k)
          locations := JsMap.filterKeys st.locations (fun k => !(ms.map Member.id).contains k) } := by
  induction ms generalizing st with
  | nil =>
    simp only [List.foldl_nil, List.map_nil, List.contains_nil, Bool.not_false]
    rw [JsMap.filterKeys_true _ _ (fun _ _ => rfl), JsMap.filterKeys_true _ _ (fun _ _ => rfl)]
  | cons a ms ih =>
    rw [List.foldl_cons, ih]
    simp only [JsMap.delete_eq_filterKeys, JsMap.filterKeys_filterKeys, List.map_cons,
      List.contains_cons, Bool.not_or]
    rfl

theorem deleteGroup_of_missing (s : Store) (g : String) (h : groupExists s g = false) :
    deleteGroup s g = (false, s) := by
  simp [deleteGroup, h]

theorem deleteGroup_of_exists (s : Store) (g : String) (h : groupExists s g = true) :
    deleteGroup s g =
      (true,
        { groups := JsMap.delete s.groups g
          members := JsMap.filterKeys s.members
            (fun k => !((getGroupMembers s g).map Member.id).contains k)
          locations := JsMap.filterKeys s.locations
            (fun k => !((getGroupMembers s g).map Member.id).contains k) }) := by
  simp only [deleteGroup, h, Bool.not_true, Bool.false_eq_true, if_false]
  rw [deleteGroup_loop]

theorem inv_empty : Inv Store.empty where
  groupsWF := List.nodup_nil
  membersWF := List.nodup_nil
  locationsWF := List.nodup_nil
  groupKey := fun _ h => by cases h
  memberKey := fun _ h => by cases h
  locationKey := fun _ h => by cases h
  locationMember := fun _ h => by cases h
  memberGroup := fun _ h => by cases h
  locationFlag := fun _ h => by cases h

theorem inv_createGroup_withId (s : Store) (id : String) (name : Option String)
    (refreshInterval : Option Int) (expiryDuration : Option ℚ) (now now2 : Int) (g : Group)
    (s' : Store) (hs : Inv s)
    (h : createGroup.withId s id name refreshInterval expiryDuration now now2 = some (g, s')) :
    Inv s' := by
  unfold createGroup.withId at h
  split at h
  · cases h
  · rename_i expiresAt _
    simp only [Option.some.injEq, Prod.mk.injEq] at h
    obtain ⟨hg, hs'⟩ := h
    subst hs'
    refine ⟨JsMap.wf_set _ _ _ hs.groupsWF, hs.membersWF, hs.locationsWF, ?_, hs.memberKey,
      hs.locationKey, hs.locationMember, ?_, hs.locationFlag⟩
    · intro e he
      rcases JsMap.mem_set _ _ _ _ he with h1 | h1
      · rw [h1]
      · exact hs.groupKey e h1.1
    · intro e he
      show JsMap.has (JsMap.set s.groups _ _) _ = true
      rw [JsMap.has_set, hs.memberGroup e he]
      rfl

theorem inv_createGroup (s : Store) (name : Option String)
    (refreshInterval : Option Int) (expiryDuration : Option ℚ) (rnd : Nat → RandomValue)
    (fuel pos : Nat) (now now2 : Int) (g : Group) (s' : Store) (hs : Inv s)
    (h : createGroup s name refreshInterval expiryDuration rnd fuel pos now now2
      = some (g, s')) :
    Inv s' := by
  unfold createGroup at h
  split at h
  · cases h
  · exact inv_createGroup_withId _ _ _ _ _ _ _ _ _ hs h

theorem inv_addMember (s : Store) (groupId memberId displayName : String) (now : Int)
    (hs : Inv s) : Inv (addMember s groupId memberId displayName now).2 := by
  unfold addMember
  cases hg : groupExists s groupId with
  | false => simpa using hs
  | true =>
    simp only [Bool.not_true, Bool.false_eq_true, if_false]
    refine ⟨hs.groupsWF, JsMap.wf_set _ _ _ hs.membersWF, hs.locationsWF, hs.groupKey, ?_,
      hs.locationKey, ?_, ?_, hs.locationFlag⟩
    · intro e he
      rcases JsMap.mem_set _ _ _ _ he with h1 | h1
      · rw [h1]
      · exact hs.memberKey e h1.1
    · intro e he
      show JsMap.has (JsMap.set s.members _ _) _ = true
      rw [JsMap.has_set, hs.locationMember e he]
      rfl
    · intro e he
      rcases JsMap.mem_set _ _ _ _ he with h1 | h1
      · rw [h1]
        exact hg
      · exact hs.memberGroup e h1.1

theorem inv_updateLocation (s : Store) (memberId groupId : String) (lat lng : ℚ)
    (sharingEnabled : Option Bool) (now : Int) (hs : Inv s) :
    Inv (updateLocation s memberId groupId lat lng sharingEnabled now).2 := by
  unfold updateLocation
  split
  · exact hs
  · rename_i member hm
    split
    · exact hs
    · refine ⟨hs.groupsWF, hs.membersWF, JsMap.wf_set _ _ _ hs.locationsWF, hs.groupKey,
        hs.memberKey, ?_, ?_, hs.memberGroup, ?_⟩
      · intro e he
        rcases JsMap.mem_set _ _ _ _ he with h1 | h1
        · rw [h1]
        · exact hs.locationKey e h1.1
      · intro e he
        rcases JsMap.mem_set _ _ _ _ he with h1 | h1
        · rw [h1]
          exact JsMap.has_of_get _ _ _ hm
        · exact hs.locationMember e h1.1
      · intro e he
        rcases JsMap.mem_set _ _ _ _ he with h1 | h1
        · rw [h1]
          exact fun hc => JsValue.noConfusion hc
        · exact hs.locationFlag e h1.1

/-- Storing a location of a stored member keeps the invariant, whatever the
record holds besides its member id, as long as its flag is not
`undefined`. -/
theorem inv_set_location (s : Store) (memberId : String) (member : Member) (l : Location)
    (hs : Inv s) (hm : getMember s memberId = some member) (hid : l.memberId = memberId)
    (hf : l.sharingEnabled ≠ JsValue.undefined) :
    Inv { s with locations := JsMap.set s.locations memberId l } := by
  refine ⟨hs.groupsWF, hs.membersWF, JsMap.wf_set _ _ _ hs.locationsWF, hs.groupKey,
    hs.memberKey, ?_, ?_, hs.memberGroup, ?_⟩
  · intro e he
    rcases JsMap.mem_set _ _ _ _ he with h1 | h1
    · rw [h1]
      exact hid
    · exact hs.locationKey e h1.1
  · intro e he
    rcases JsMap.mem_set _ _ _ _ he with h1 | h1
    · rw [h1]
      exact JsMap.has_of_get _ _ _ hm
    · exact hs.locationMember e h1.1
  · intro e he
    rcases JsMap.mem_set _ _ _ _ he with h1 | h1
    · rw [h1]
      exact hf
    · exact hs.locationFlag e h1.1

theorem inv_updateLocation_anyFlag (s : Store) (memberId groupId : String) (lat lng : ℚ)
    (sharingEnabled : JsValue) (now : Int) (hs : Inv s) :
    Inv (updateLocation.anyFlag s memberId groupId lat lng sharingEnabled now).2 := by
  unfold updateLocation.anyFlag
  split
  · exact hs
  · rename_i member hm
    split
    · exact hs
    · have hf : (if sharingEnabled = JsValue.undefined then JsValue.boolean true
          else sharingEnabled) ≠ JsValue.undefined := by
        split
        · exact fun hc => JsValue.noConfusion hc
        · assumption
      dsimp only
      generalize (if sharingEnabled = JsValue.undefined then JsValue.boolean true
          else sharingEnabled) = flag at hf
      split
      · exact inv_set_location s memberId member _ hs hm rfl hf
      · exact inv_set_location s memberId member _ hs hm rfl hf

/-- In a well-formed store the members that `deleteGroup` leaves are the
members of other groups. -/
theorem member_kept_groupId_ne (s : Store) (g : String) (hs : Inv s) (e : String × Member)
    (he : e ∈ s.members)
    (hk : (!((getGroupMembers s g).map Member.id).contains e.1) = true) :
    e.2.groupId ≠ g := by
  intro hg
  have hmem : e.2 ∈ getGroupMembers s g :=
    (mem_getGroupMembers s g e.2).mpr ⟨⟨e.1, he⟩, hg⟩
  have hid : e.1 ∈ (getGroupMembers s g).map Member.id := by
    rw [← hs.memberKey e he]
    exact List.mem_map_of_mem _ hmem
  simp only [Bool.not_eq_true', List.contains_eq_any_beq, List.any_eq_false] at hk
  obtain ⟨x, hx, hxe⟩ := List.mem_map.mp hid
  exact hk _ (List.mem_map_of_mem _ hx) (by simp [hxe])

/-- Removing a group together with a set of member ids keeps the invariant,
as long as every member left belongs to another group. -/
theorem inv_remove (s : Store) (g : String) (p : String → Bool) (hs : Inv s)
    (hp : ∀ e ∈ s.members, p e.1 = true → e.2.groupId ≠ g) :
    Inv { groups := JsMap.delete s.groups g
          members := JsMap.filterKeys s.members p
          locations := JsMap.filterKeys s.locations p } := by
  refine ⟨JsMap.wf_delete _ _ hs.groupsWF, JsMap.wf_filterKeys _ p hs.membersWF,
    JsMap.wf_filterKeys _ p hs.locationsWF, ?_, ?_, ?_, ?_, ?_, ?_⟩
  · intro e he
    exact hs.groupKey e ((JsMap.mem_delete _ _ _).mp he).1
  · intro e he
    exact hs.memberKey e ((JsMap.mem_filterKeys _ p _).mp he).1
  · intro e he
    exact hs.locationKey e ((JsMap.mem_filterKeys _ p _).mp he).1
  · intro e he
    obtain ⟨h1, h2⟩ := (JsMap.mem_filterKeys _ p _).mp he
    show JsMap.has (JsMap.filterKeys s.members p) e.1 = true
    rw [JsMap.has_filterKeys, hs.locationMember e h1, h2]
    rfl
  · intro e he
    obtain ⟨h1, h2⟩ := (JsMap.mem_filterKeys _ p _).mp he
    show JsMap.has (JsMap.delete s.groups g) e.2.groupId = true
    rw [JsMap.has_delete_of_ne _ _ _ (hp e h1 h2)]
    exact hs.memberGroup e h1
  · intro e he
    exact hs.locationFlag e ((JsMap.mem_filterKeys _ p _).mp he).1

theorem inv_deleteGroup (s : Store) (g : String) (hs : Inv s) : Inv (deleteGroup s g).2 := by
  cases hg : groupExists s g with
  | false => rw [deleteGroup_of_missing s g hg]; exact hs
  | true =>
    rw [deleteGroup_of_exists s g hg]
    exact inv_remove s g _ hs (fun e he hk => member_kept_groupId_ne s g hs e he hk)

theorem inv_delete_location (s : Store) (k : String) (hs : Inv s) :
    Inv { s with locations := JsMap.delete s.locations k } :=
  ⟨hs.groupsWF, hs.membersWF, JsMap.wf_delete _ _ hs.locationsWF, hs.groupKey, hs.memberKey,
    fun e he => hs.locationKey e ((JsMap.mem_delete _ _ _).mp he).1,
    fun e he => hs.locationMember e ((JsMap.mem_delete _ _ _).mp he).1, hs.memberGroup,
    fun e he => hs.locationFlag e ((JsMap.mem_delete _ _ _).mp he).1⟩

theorem inv_cleanupInactiveMembers (s : Store) (inactiveThresholdMs : Option Int) (now : Int)
    (hs : Inv s) : Inv (cleanupInactiveMembers s inactiveThresholdMs now).2 := by
  unfold cleanupInactiveMembers
  apply foldl_invariant (fun acc : Nat × Store => Inv acc.2)
  · exact hs
  · intro acc e _ hacc
    split
    · exact inv_delete_location _ _ hacc
    · exact hacc

theorem inv_cleanupExpiredGroups (s : Store) (now : Int) (hs : Inv s) :
    Inv (cleanupExpiredGroups s now).2 := by
  unfold cleanupExpiredGroups
  apply foldl_invariant (fun acc : Nat × Store => Inv acc.2)
  · exact hs
  · intro acc e _ hacc
    split
    · split
      · exact inv_deleteGroup _ _ hacc
      · exact hacc
    · exact hacc

theorem inv_of_reachable (s : Store) (h : Reachable s) : Inv s := by
  induction h with
  | empty => exact inv_empty
  | createGroup name ri ex rnd fuel pos now now2 _ _ hc ih =>
    exact inv_createGroup _ _ _ _ _ _ _ _ _ _ _ ih hc
  | addMember g m d now _ ih => exact inv_addMember _ _ _ _ _ ih
  | updateLocation m g lat lng sh now _ ih => exact inv_updateLocation _ _ _ _ _ _ _ ih
  | updateLocationAnyFlag m g lat lng sh now _ ih =>
    exact inv_updateLocation_anyFlag _ _ _ _ _ _ _ ih
  | deleteGroup g _ ih => exact inv_deleteGroup _ _ ih
  | cleanupInactiveMembers t now _ ih => exact inv_cleanupInactiveMembers _ _ _ ih
  | cleanupExpiredGroups now _ ih => exact inv_cleanupExpiredGroups _ _ ih

/-! ## Facts about the sweeps -/

theorem filter_map_filter {α β : Type} (p : α → Bool) (q : β → Bool) (f : α → β) (l : List α)
    (h : ∀ e ∈ l, p e = false → q (f e) = false) :
    ((l.filter p).map f).filter q = (l.map f).filter q := by
  induction l with
  | nil => rfl
  | cons a l ih =>
    have ih2 := ih (fun e he => h e (List.mem_cons_of_mem _ he))
    cases hp : p a with
    | true => simp [List.filter_cons, hp, ih2]
    | false =>
      have hq := h a (List.mem_cons_self _ _) hp
      simp [List.filter_cons, hp, hq, ih2]

/-- A property that one visited element establishes, whatever the state
before, and that every step keeps, holds at the end of a left fold. -/
theorem foldl_established {α β : Type} (Q : β → Prop) (f : β → α → β) (l : List α) (init : β)
    (e0 : α) (he0 : e0 ∈ l) (hset : ∀ acc, Q (f acc e0))
    (hkeep : ∀ acc e, Q acc → Q (f acc e)) : Q (l.foldl f init) := by
  induction l generalizing init with
  | nil => cases he0
  | cons a l ih =>
    rw [List.foldl_cons]
    rcases List.mem_cons.mp he0 with h | h
    · subst h
      apply foldl_invariant Q f l _ (hset init)
      intro acc e _ hacc
      exact hkeep acc e hacc
    · exact ih _ h

theorem member_entry (s : Store) (hs : Inv s) (g : String) (member : Member)
    (h : member ∈ getGroupMembers s g) : (member.id, member) ∈ s.members := by
  obtain ⟨⟨k, hk⟩, _⟩ := (mem_getGroupMembers s g member).mp h
  have := hs.memberKey _ hk
  simp only at this
  rw [this]
  exact hk

/-- In a well-formed store, a member entry whose key is the id of a member
of group `g` is itself a member of `g`. -/
theorem groupId_of_key_mem_ids (s : Store) (hs : Inv s) (g : String) (e : String × Member)
    (he : e ∈ s.members)
    (hk : ((getGroupMembers s g).map Member.id).contains e.1 = true) : e.2.groupId = g := by
  simp only [List.contains_eq_any_beq, List.any_eq_true, beq_iff_eq] at hk
  obtain ⟨x, hx, hxe⟩ := hk
  obtain ⟨member, hmem, hid⟩ := List.mem_map.mp hx
  have h1 := member_entry s hs g member hmem
  have h2 : (member.id, e.2) ∈ s.members := by
    rw [hid, ← hxe]
    exact he
  have := JsMap.eq_of_mem_of_mem _ hs.membersWF _ _ _ h1 h2
  rw [← this]
  exact ((mem_getGroupMembers s g member).mp hmem).2

theorem getGroup_deleteGroup_of_ne (s : Store) (k g : String) (h : k ≠ g) :
    getGroup (deleteGroup s k).2 g = getGroup s g := by
  cases hk : groupExists s k with
  | false => rw [deleteGroup_of_missing s k hk]
  | true =>
    rw [deleteGroup_of_exists s k hk]
    exact JsMap.get_delete_of_ne _ _ _ (fun h2 => h h2.symm)

theorem getGroupMembers_deleteGroup_of_ne (s : Store) (hs : Inv s) (k g : String) (h : k ≠ g) :
    getGroupMembers (deleteGroup s k).2 g = getGroupMembers s g := by
  cases hk : groupExists s k with
  | false => rw [deleteGroup_of_missing s k hk]
  | true =>
    rw [deleteGroup_of_exists s k hk]
    apply filter_map_filter
    intro e he hp
    have hc : ((getGroupMembers s k).map Member.id).contains e.1 = true := by
      simpa using hp
    have := groupId_of_key_mem_ids s hs k e he hc
    simp only [this, beq_eq_false_iff_ne, ne_eq]
    exact h

theorem location_deleteGroup_of_ne (s : Store) (hs : Inv s) (k g : String) (h : k ≠ g)
    (member : Member) (hm : member ∈ getGroupMembers s g) :
    JsMap.get (deleteGroup s k).2.locations member.id = JsMap.get s.locations member.id := by
  cases hk : groupExists s k with
  | false => rw [deleteGroup_of_missing s k hk]
  | true =>
    rw [deleteGroup_of_exists s k hk]
    dsimp only
    rw [JsMap.get_filterKeys]
    split
    · rfl
    · rename_i hp
      exfalso
      have hc : ((getGroupMembers s k).map Member.id).contains member.id = true := by
        simpa using hp
      have h1 := groupId_of_key_mem_ids s hs k (member.id, member)
        (member_entry s hs g member hm) hc
      have h2 := ((mem_getGroupMembers s g member).mp hm).2
      simp only at h1
      exact h (h1.symm.trans h2)

theorem groupExists_deleteGroup_le (s : Store) (k g : String)
    (h : groupExists s g = false) : groupExists (deleteGroup s k).2 g = false := by
  cases hk : groupExists s k with
  | false => rw [deleteGroup_of_missing s k hk]; exact h
  | true =>
    rw [deleteGroup_of_exists s k hk]
    show JsMap.has (JsMap.delete s.groups k) g = false
    rw [JsMap.delete_eq_filterKeys, JsMap.has_filterKeys]
    have : JsMap.has s.groups g = false := h
    rw [this, Bool.and_false]

theorem groupExists_deleteGroup_self (s : Store) (g : String) :
    groupExists (deleteGroup s g).2 g = false := by
  cases hk : groupExists s g with
  | false => rw [deleteGroup_of_missing s g hk]; exact hk
  | true =>
    rw [deleteGroup_of_exists s g hk]
    exact JsMap.has_delete_self _ _

/-- The expiry sweep keeps a stored group that has no expiry or whose
expiry is not earlier than the clock, with its members and their locations. -/
theorem cleanupExpiredGroups_keeps (s : Store) (hs : Inv s) (G : Group) (now : Int)
    (hG : getGroup s G.id = some G) (hkeep : ∀ x, G.expiresAt = some x → ¬ x < now) :
    getGroup (cleanupExpiredGroups s now).2 G.id = some G ∧
    getGroupMembers (cleanupExpiredGroups s now).2 G.id = getGroupMembers s G.id ∧
    ∀ member ∈ getGroupMembers s G.id,
      JsMap.get (cleanupExpiredGroups s now).2.locations member.id
        = JsMap.get s.locations member.id := by
  have key : ∀ e ∈ s.groups, ∀ x, e.2.expiresAt = some x → x < now → e.1 ≠ G.id := by
    intro e he x hx hlt heq
    have h1 : (G.id, e.2) ∈ s.groups := by rw [← heq]; exact he
    have h2 := JsMap.eq_of_mem_of_mem _ hs.groupsWF _ _ _ h1 (JsMap.mem_of_get _ _ _ hG)
    rw [h2] at hx
    exact hkeep x hx hlt
  have main := foldl_invariant
    (fun acc : Nat × Store =>
      Inv acc.2 ∧ getGroup acc.2 G.id = some G ∧
      getGroupMembers acc.2 G.id = getGroupMembers s G.id ∧
      ∀ member ∈ getGroupMembers s G.id,
        JsMap.get acc.2.locations member.id = JsMap.get s.locations member.id)
    (fun (acc : Nat × Store) entry =>
      match entry.2.expiresAt with
      | some expiresAt =>
        if expiresAt < now then (acc.1 + 1, (deleteGroup acc.2 entry.1).2) else acc
      | none => acc)
    s.groups (0, s) ⟨hs, hG, rfl, fun _ _ => rfl⟩
    (by
      intro acc e he hacc
      obtain ⟨hi, hg, hmem, hloc⟩ := hacc
      dsimp only
      split
      · rename_i x hx
        split
        · rename_i hlt
          have hne := key e he x hx hlt
          refine ⟨inv_deleteGroup _ _ hi, ?_, ?_, ?_⟩
          · rw [getGroup_deleteGroup_of_ne _ _ _ hne]; exact hg
          · rw [getGroupMembers_deleteGroup_of_ne _ hi _ _ hne]; exact hmem
          · intro member hm
            rw [location_deleteGroup_of_ne _ hi _ _ hne member (by rw [hmem]; exact hm)]
            exact hloc member hm
        · exact ⟨hi, hg, hmem, hloc⟩
      · exact ⟨hi, hg, hmem, hloc⟩)
  exact main.2

/-- The expiry sweep removes a stored group whose expiry is earlier than
the clock. -/
theorem cleanupExpiredGroups_removes (s : Store) (G : Group) (now x : Int)
    (hG : getGroup s G.id = some G) (hx : G.expiresAt = some x) (hlt : x < now) :
    groupExists (cleanupExpiredGroups s now).2 G.id = false := by
  unfold cleanupExpiredGroups
  apply foldl_established (fun acc : Nat × Store => groupExists acc.2 G.id = false)
    _ s.groups (0, s) (G.id, G) (JsMap.mem_of_get _ _ _ hG)
  · intro acc
    simp only [hx, hlt, if_true]
    exact groupExists_deleteGroup_self _ _
  · intro acc e hacc
    split
    · split
      · exact groupExists_deleteGroup_le _ _ _ hacc
      · exact hacc
    · exact hacc

theorem groupExists_of_getGroup (s : Store) (g : String) (G : Group)
    (h : getGroup s g = some G) : groupExists s g = true :=
  JsMap.has_of_get _ _ _ h

/-- When every listed entry is past the threshold, the loop of
`cleanupInactiveMembers` counts each of them and deletes its key. -/
theorem cleanupInactiveMembers_loop_all (now threshold : Int) (l : List (String × Location))
    (acc : Nat × Store) (h : ∀ e ∈ l, now - e.2.updatedAt > threshold) :
    l.foldl
        (fun (acc : Nat × Store) entry =>
          if now - entry.2.updatedAt > threshold then
            (acc.1 + 1, { acc.2 with locations := acc.2.locations.delete entry.1 })
          else acc)
        acc
      = (acc.1 + l.length,
          { acc.2 with
            locations := JsMap.filterKeys acc.2.locations
              (fun k => !(JsMap.keys l).contains k) }) := by
  induction l generalizing acc with
  | nil =>
    simp only [List.foldl_nil, List.length_nil, Nat.add_zero, JsMap.keys, List.map_nil,
      List.contains_nil, Bool.not_false]
    rw [JsMap.filterKeys_true _ _ (fun _ _ => rfl)]
  | cons a l ih =>
    rw [List.foldl_cons, if_pos (h a (List.mem_cons_self _ _)),
      ih _ (fun e he => h e (List.mem_cons_of_mem _ he))]
    simp only [JsMap.delete_eq_filterKeys, JsMap.filterKeys_filterKeys, JsMap.keys,
      List.map_cons, List.contains_cons, Bool.not_or, List.length_cons]
    refine Prod.ext (by simp only; omega) ?_
    rfl

/-! ## Facts about `generateGroupId` -/

theorem chars_length : chars.length = 36 := by decide

theorem floorMul_lt (r : RandomValue) (n : Nat) (h : r.inUnit) (hn : 0 < n) :
    r.floorMul n < n := by
  unfold RandomValue.floorMul
  unfold RandomValue.inUnit at h
  rw [Nat.div_lt_iff_lt_mul (by omega), Nat.mul_comm n]
  exact Nat.mul_lt_mul_of_pos_right h hn

theorem charAt_of_lt (s : String) (k : Nat) (h : k < s.length) :
    ∃ c, c ∈ s.data ∧ charAt s k = String.singleton c := by
  have hk : k < s.data.length := h
  refine ⟨s.data[k], List.getElem_mem _, ?_⟩
  simp [charAt, List.getElem?_eq_getElem hk]

theorem loop_spec (rnd : Nat → RandomValue) (hr : ∀ i, (rnd i).inUnit) (n pos : Nat)
    (id : String) :
    (generateGroupId.loop rnd n pos id).length = id.length + n ∧
    ∀ c ∈ (generateGroupId.loop rnd n pos id).data, c ∈ id.data ∨ c ∈ chars.data := by
  induction n generalizing pos id with
  | zero => exact ⟨rfl, fun c hc => Or.inl hc⟩
  | succ n ih =>
    obtain ⟨c0, hc0, hch⟩ := charAt_of_lt chars ((rnd pos).floorMul chars.length)
      (floorMul_lt _ _ (hr pos) (by decide))
    have := ih (pos + 1) (id ++ charAt chars ((rnd pos).floorMul chars.length))
    rw [hch] at this
    unfold generateGroupId.loop
    rw [hch]
    obtain ⟨h1, h2⟩ := this
    refine ⟨?_, ?_⟩
    · rw [h1, String.length_append, String.length_singleton]
      omega
    · intro c hc
      rcases h2 c hc with h | h
      · rw [String.data_append, List.mem_append] at h
        rcases h with h | h
        · exact Or.inl h
        · right
          have : c = c0 := by simpa [String.singleton] using h
          rw [this]
          exact hc0
      · exact Or.inr h

theorem generateGroupId_some (groups : JsMap Group) (rnd : Nat → RandomValue) (fuel pos : Nat)
    (id : String) (pos' : Nat) (h : generateGroupId groups rnd fuel pos = some (id, pos')) :
    JsMap.has groups id = false ∧ ∃ p, id = generateGroupId.loop rnd 6 p "" := by
  induction fuel generalizing pos with
  | zero => cases h
  | succ fuel ih =>
    unfold generateGroupId at h
    simp only at h
    split at h
    · exact ih _ h
    · rename_i hh
      simp only [Option.some.injEq, Prod.mk.injEq] at h
      rw [← h.1]
      exact ⟨by simpa using hh, pos, rfl⟩

theorem generateGroupId_returns (groups : JsMap Group) (rnd : Nat → RandomValue) (k : Nat) :
    ∀ pos fuel, JsMap.has groups (generateGroupId.loop rnd 6 (pos + 6 * k) "") = false →
      k < fuel → (generateGroupId groups rnd fuel pos).isSome = true := by
  induction k with
  | zero =>
    intro pos fuel h hk
    obtain ⟨f, rfl⟩ : ∃ f, fuel = f + 1 := ⟨fuel - 1, by omega⟩
    unfold generateGroupId
    simp only [Nat.mul_zero, Nat.add_zero] at h
    simp [h]
  | succ k ih =>
    intro pos fuel h hk
    obtain ⟨f, rfl⟩ : ∃ f, fuel = f + 1 := ⟨fuel - 1, by omega⟩
    unfold generateGroupId
    simp only
    split
    · apply ih
      · have : pos + 6 + 6 * k = pos + 6 * (k + 1) := by omega
        rw [this]
        exact h
      · omega
    · rfl

theorem createGroup_some (s : Store) (name : Option String)
    (refreshInterval : Option Int) (expiryDuration : Option ℚ) (rnd : Nat → RandomValue)
    (fuel pos : Nat) (now now2 : Int) (G : Group) (s1 : Store)
    (h : createGroup s name refreshInterval expiryDuration rnd fuel pos now now2
      = some (G, s1)) :
    createGroup.expiresAt expiryDuration now2 = some G.expiresAt := by
  unfold createGroup at h
  split at h
  · cases h
  · unfold createGroup.withId at h
    split at h
    · cases h
    · rename_i hx
      simp only [Option.some.injEq, Prod.mk.injEq] at h
      rw [← h.1]
      exact hx

theorem reachable_sweeps (s : Store) (h : Reachable s) (clocks : List Int) :
    Reachable (cleanupExpiredGroups.sweeps s clocks) := by
  induction clocks generalizing s with
  | nil => exact h
  | cons now rest ih => exact ih _ (Reachable.cleanupExpiredGroups now h)

theorem updateLocation_of_member (s : Store) (memberId groupId : String) (lat lng : ℚ)
    (sharingEnabled : Option Bool) (now : Int) (member : Member)
    (hm : getMember s memberId = some member) (hg : member.groupId = groupId) :
    updateLocation s memberId groupId lat lng sharingEnabled now =
      (some
          { memberId := memberId
            groupId := groupId
            lat := lat
            lng := lng
            sharingEnabled := JsValue.boolean (sharingEnabled.getD true)
            updatedAt := match JsMap.get s.locations memberId with
              | some existing => existing.updatedAt
              | none => now },
        { s with
          locations := JsMap.set s.locations memberId
            { memberId := memberId
              groupId := groupId
              lat := lat
              lng := lng
              sharingEnabled := JsValue.boolean (sharingEnabled.getD true)
              updatedAt := match JsMap.get s.locations memberId with
                | some existing => existing.updatedAt
                | none => now } }) := by
  simp [updateLocation, hm, hg]

theorem updateLocation_some (s : Store) (memberId groupId : String) (lat lng : ℚ)
    (sharingEnabled : Option Bool) (now : Int) (location : Location) (s' : Store)
    (h : updateLocation s memberId groupId lat lng sharingEnabled now = (some location, s')) :
    ∃ member, getMember s memberId = some member ∧ member.groupId = groupId := by
  unfold updateLocation at h
  split at h
  · cases h
  · rename_i member hm
    split at h
    · cases h
    · rename_i hg
      exact ⟨member, hm, by simpa using hg⟩

namespace Scenario

theorem rnd_inUnit : ∀ i, (rnd i).inUnit := by
  intro i
  show (if i < 6 then 0 else 1) < 36
  split <;> omega

theorem reachable_twoGroups : Reachable twoGroups := by
  have h1 : Reachable oneGroup :=
    Reachable.createGroup (g := groupA) (some "Trip") (some 10) none rnd 1 0 1000 1000
      Reachable.empty rnd_inUnit (by decide)
  exact Reachable.createGroup (g := groupB) none none none rnd 2 0 1500 1500 h1 rnd_inUnit
    (by decide)

theorem reachable_joined : Reachable joined := by
  have h := Reachable.addMember "AAAAAA" "m1" "Alice" 2000 reachable_twoGroups
  have e : (addMember twoGroups "AAAAAA" "m1" "Alice" 2000).2 = joined := by decide
  rwa [e] at h

theorem reachable_shared : Reachable shared := by
  have h := Reachable.updateLocation "m1" "AAAAAA" 37 (-122) none 3000 reachable_joined
  have e : (updateLocation joined "m1" "AAAAAA" 37 (-122) none 3000).2 = shared := by decide
  rwa [e] at h

theorem reachable_rejoined : Reachable rejoined := by
  have h := Reachable.addMember "BBBBBB" "m1" "Alice" 4000 reachable_shared
  have e : (addMember shared "BBBBBB" "m1" "Alice" 4000).2 = rejoined := by decide
  rwa [e] at h

end Scenario

/-- What `createGroup` returns and stores once the id is drawn and the
expiry instant is a valid date. -/
theorem createGroup_of_id (s : Store) (name : Option String)
    (refreshInterval : Option Int) (expiryDuration : Option ℚ) (rnd : Nat → RandomValue)
    (fuel pos : Nat) (now now2 : Int) (id : String) (pos' : Nat)
    (hgen : generateGroupId s.groups rnd fuel pos = some (id, pos'))
    (expiresAt : Option Int) (hx : createGroup.expiresAt expiryDuration now2 = some expiresAt) :
    createGroup s name refreshInterval expiryDuration rnd fuel pos now now2 =
      some
        ({ id := id
           name := match name with
             | some n => if n = "" then "Group " ++ id else n
             | none => "Group " ++ id
           createdAt := now
           expiresAt := expiresAt
           refreshInterval := refreshInterval.getD 30 },
         { s with
           groups := JsMap.set s.groups id
             { id := id
               name := match name with
                 | some n => if n = "" then "Group " ++ id else n
                 | none => "Group " ++ id
               createdAt := now
               expiresAt := expiresAt
               refreshInterval := refreshInterval.getD 30 } }) := by
  unfold createGroup
  rw [hgen]
  unfold createGroup.withId
  rw [hx]

theorem createGroup_createdAt (s : Store) (name : Option String)
    (refreshInterval : Option Int) (expiryDuration : Option ℚ) (rnd : Nat → RandomValue)
    (fuel pos : Nat) (now now2 : Int) (G : Group) (s1 : Store)
    (h : createGroup s name refreshInterval expiryDuration rnd fuel pos now now2
      = some (G, s1)) :
    G.createdAt = now := by
  unfold createGroup at h
  split at h
  · cases h
  · unfold createGroup.withId at h
    split at h
    · cases h
    · simp only [Option.some.injEq, Prod.mk.injEq] at h
      rw [← h.1]

/-- The expiry instant that a non-zero number of hours gives, when it is a
valid date: the clock reading plus the hours in milliseconds, cut to an
integer. -/
theorem createGroup_expiresAt_some (h : ℚ) (now2 : Int) (h0 : h ≠ 0) (e : Option Int)
    (he : createGroup.expiresAt (some h) now2 = some e) :
    e = some (truncate ((now2 : ℚ) + h * 3600000)) := by
  have e1 : (now2 : ℚ) + h * 60 * 60 * 1000 = (now2 : ℚ) + h * 3600000 := by ring
  unfold createGroup.expiresAt at he
  simp only [h0, if_false, e1] at he
  unfold toISOString at he
  split at he
  · simp only [Option.map_some', Option.some.injEq] at he
    exact he.symm
  · simp at he

/-- After the epoch, an instant cut to an integer is before an integer
clock reading exactly when the instant itself is. -/
theorem truncate_lt_iff (x : ℚ) (N : Int) (hN : 0 < N) : truncate x < N ↔ x < (N : ℚ) := by
  unfold truncate
  by_cases hx : 0 ≤ x
  · rw [if_pos hx]
    exact Int.floor_lt
  · rw [if_neg hx]
    have hx2 : x < 0 := not_le.mp hx
    have h1 : ⌈x⌉ ≤ 0 := Int.ceil_le.mpr (by exact_mod_cast hx2.le)
    have h2 : (0 : ℚ) < (N : ℚ) := by exact_mod_cast hN
    constructor
    · intro _
      exact lt_trans hx2 h2
    · intro _
      omega

/-! ## The claims -/

/-- C1, at an input where the code departs from it.  After a member id that
already shares a position in group `AAAAAA` joins group `BBBBBB`, the store
is reachable and `AAAAAA` exists; `deleteGroup("AAAAAA")` returns `true`,
the group is gone and it has no members, but `getGroupLocations("AAAAAA")`
still returns the position: the location record outlives its group. -/
theorem deleteGroup_leaves_location_of_rejoined_member :
    Reachable Scenario.rejoined ∧
    groupExists Scenario.rejoined "AAAAAA" = true ∧
    (deleteGroup Scenario.rejoined "AAAAAA").1 = true ∧
    groupExists (deleteGroup Scenario.rejoined "AAAAAA").2 "AAAAAA" = false ∧
    getGroupMembers (deleteGroup Scenario.rejoined "AAAAAA").2 "AAAAAA" = [] ∧
    getGroupLocations (deleteGroup Scenario.rejoined "AAAAAA").2 "AAAAAA" =
      [{ memberId := "m1", groupId := "AAAAAA", lat := 37, lng := -122,
         sharingEnabled := .boolean true,
         updatedAt := 3000, displayName := "Alice" }] :=
  ⟨Scenario.reachable_rejoined, by decide, by decide, by decide, by decide, by decide⟩

/-- C2: when `updateLocation(m, g, lat1, lng1, s1)` succeeds and the next
store call is `updateLocation(m, g, lat2, lng2, s2)`, at whatever clock
reading, the second call succeeds; the record it returns is the one stored
under `m`; it has the `updatedAt` of the first call's record, the new
`lat`, `lng` and `sharingEnabled`, and the same `memberId` and `groupId`. -/
theorem updateLocation_twice_keeps_updatedAt (s : Store) (m g : String) (lat1 lng1 : ℚ)
    (s1 : Option Bool) (t0 : Int) (first : Location) (st1 : Store)
    (h : updateLocation s m g lat1 lng1 s1 t0 = (some first, st1))
    (lat2 lng2 : ℚ) (s2 : Option Bool) (t1 : Int) :
    ∃ second st2,
      updateLocation st1 m g lat2 lng2 s2 t1 = (some second, st2) ∧
      JsMap.get st2.locations m = some second ∧
      second.updatedAt = first.updatedAt ∧
      second.lat = lat2 ∧ second.lng = lng2 ∧
      second.sharingEnabled = JsValue.boolean (s2.getD true) ∧
      second.memberId = first.memberId ∧ second.groupId = first.groupId := by
  obtain ⟨member, hm, hg⟩ := updateLocation_some _ _ _ _ _ _ _ _ _ h
  rw [updateLocation_of_member s m g lat1 lng1 s1 t0 member hm hg] at h
  simp only [Prod.mk.injEq, Option.some.injEq] at h
  obtain ⟨hfirst, hst1⟩ := h
  have hm1 : getMember st1 m = some member := by rw [← hst1]; exact hm
  have hl1 : JsMap.get st1.locations m = some first := by
    rw [← hst1, ← hfirst]
    exact JsMap.get_set_self _ _ _
  refine ⟨_, _, updateLocation_of_member st1 m g lat2 lng2 s2 t1 member hm1 hg, ?_, ?_, rfl,
    rfl, rfl, ?_, ?_⟩
  · exact JsMap.get_set_self _ _ _
  · simp only [hl1]
  · rw [← hfirst]
  · rw [← hfirst]

theorem updateLocation_twice_keeps_updatedAt_witness :
    updateLocation Scenario.joined "m1" "AAAAAA" 37 (-122) none 3000 =
        (some { memberId := "m1", groupId := "AAAAAA", lat := 37, lng := -122,
                sharingEnabled := .boolean true, updatedAt := 3000 }, Scenario.shared) ∧
    ∃ second st2,
      updateLocation Scenario.shared "m1" "AAAAAA" 38 (-123) (some false) 9000
        = (some second, st2) ∧
      JsMap.get st2.locations "m1" = some second ∧
      second.updatedAt = 3000 ∧
      second.lat = 38 ∧ second.lng = -123 ∧ second.sharingEnabled = JsValue.boolean false ∧
      second.memberId = "m1" ∧ second.groupId = "AAAAAA" :=
  ⟨by decide,
    updateLocation_twice_keeps_updatedAt Scenario.joined "m1" "AAAAAA" 37 (-122) none 3000
      { memberId := "m1", groupId := "AAAAAA", lat := 37, lng := -122,
        sharingEnabled := .boolean true, updatedAt := 3000 }
      Scenario.shared (by decide) 38 (-123) (some false) 9000⟩

/-- C3: when no member is stored under `m`, or the stored member belongs to
a group other than `g`, `updateLocation(m, g, ...)` returns `null` and the
store (groups, members and locations) is the one before the call. -/
theorem updateLocation_rejects_foreign_member (s : Store) (m g : String) (lat lng : ℚ)
    (sharingEnabled : Option Bool) (now : Int)
    (h : getMember s m = none ∨ ∃ member, getMember s m = some member ∧ member.groupId ≠ g) :
    updateLocation s m g lat lng sharingEnabled now = (none, s) := by
  unfold updateLocation
  rcases h with h | ⟨member, hm, hg⟩
  · rw [h]
  · rw [hm]
    simp [hg]

theorem updateLocation_rejects_foreign_member_witness :
    (getMember Scenario.shared "m1" = none ∨
      ∃ member, getMember Scenario.shared "m1" = some member ∧ member.groupId ≠ "BBBBBB") ∧
    updateLocation Scenario.shared "m1" "BBBBBB" 1 2 none 5000 = (none, Scenario.shared) :=
  ⟨Or.inr ⟨_, rfl, by decide⟩,
    updateLocation_rejects_foreign_member Scenario.shared "m1" "BBBBBB" 1 2 none 5000
      (Or.inr ⟨_, rfl, by decide⟩)⟩

/-- C4: when `groupExists(g)` is false, `addMember(g, memberId, displayName)`
returns `null` and the store is the one before the call; so no member
record is created and a record already stored under `memberId` stays. -/
theorem addMember_unknown_group (s : Store) (g memberId displayName : String) (now : Int)
    (h : groupExists s g = false) :
    addMember s g memberId displayName now = (none, s) ∧
    getMember (addMember s g memberId displayName now).2 memberId = getMember s memberId := by
  have : addMember s g memberId displayName now = (none, s) := by
    simp [addMember, h]
  exact ⟨this, by rw [this]⟩

theorem addMember_unknown_group_witness :
    groupExists Scenario.shared "ZZZZZZ" = false ∧
    addMember Scenario.shared "ZZZZZZ" "m1" "Mallory" 5000 = (none, Scenario.shared) ∧
    getMember (addMember Scenario.shared "ZZZZZZ" "m1" "Mallory" 5000).2 "m1"
      = getMember Scenario.shared "m1" :=
  ⟨by decide, addMember_unknown_group Scenario.shared "ZZZZZZ" "m1" "Mallory" 5000 (by decide)⟩

/-- C5, as stated, fails at three inputs.  With `h = 0`,
`createGroup(undefined, undefined, 0)` at clock 1000 returns a group with
`expiresAt` `null`, and the sweep at 5000, past `1000 + 0 * 3600000`,
leaves it stored.  With `h = 2` and a clock that ticks between the two
readings of `createGroup` (1000 for `createdAt`, 1001 for the expiry), the
sweep at 7201001, past `1000 + 2 * 3600000`, leaves the group stored.  With
`h = -1/7200000` at clock 0 the expiry instant `-0.5` is stored as 0, and
the sweep at clock 0, past `-0.5`, leaves the group stored. -/
theorem createGroup_zero_hours_or_clock_tick_is_not_swept :
    (createGroup Store.empty none none (some 0) Scenario.rnd 1 0 1000 1000
        = some (Scenario.groupZero, Scenario.zeroHours) ∧
      ((5000 : Int) : ℚ) > (1000 : Int) + (0 : ℚ) * 3600000 ∧
      groupExists (cleanupExpiredGroups Scenario.zeroHours 5000).2 Scenario.groupZero.id
        = true) ∧
    (createGroup Store.empty none none (some 2) Scenario.rnd 1 0 1000 1001
        = some ({ id := "AAAAAA", name := "Group AAAAAA", createdAt := 1000,
                  expiresAt := some 7201001, refreshInterval := 30 },
                { groups := [("AAAAAA", { id := "AAAAAA", name := "Group AAAAAA",
                                          createdAt := 1000, expiresAt := some 7201001,
                                          refreshInterval := 30 })],
                  members := [], locations := [] }) ∧
      ((7201001 : Int) : ℚ) > (1000 : Int) + (2 : ℚ) * 3600000 ∧
      groupExists (cleanupExpiredGroups
        { groups := [("AAAAAA", { id := "AAAAAA", name := "Group AAAAAA",
                                  createdAt := 1000, expiresAt := some 7201001,
                                  refreshInterval := 30 })],
          members := [], locations := [] } 7201001).2 "AAAAAA" = true) ∧
    (createGroup Store.empty none none (some (-1 / 7200000)) Scenario.rnd 1 0 0 0
        = some ({ id := "AAAAAA", name := "Group AAAAAA", createdAt := 0,
                  expiresAt := some 0, refreshInterval := 30 },
                { groups := [("AAAAAA", { id := "AAAAAA", name := "Group AAAAAA",
                                          createdAt := 0, expiresAt := some 0,
                                          refreshInterval := 30 })],
                  members := [], locations := [] }) ∧
      ((0 : Int) : ℚ) > (0 : Int) + (-1 / 7200000 : ℚ) * 3600000 ∧
      groupExists (cleanupExpiredGroups
        { groups := [("AAAAAA", { id := "AAAAAA", name := "Group AAAAAA",
                                  createdAt := 0, expiresAt := some 0,
                                  refreshInterval := 30 })],
          members := [], locations := [] } 0).2 "AAAAAA" = true) := by
  refine ⟨⟨by decide, by norm_num, by decide⟩, ⟨?_, by norm_num, by decide⟩,
    ⟨?_, by norm_num, by decide⟩⟩
  · rw [createGroup_of_id Store.empty none none (some 2) Scenario.rnd 1 0 1000 1001 "AAAAAA" 6
      (by decide) (some 7201001)
      (by norm_num [createGroup.expiresAt, toISOString, truncate, maxTime])]
    decide
  · rw [createGroup_of_id Store.empty none none (some (-1 / 7200000)) Scenario.rnd 1 0 0 0
      "AAAAAA" 6 (by decide) (some 0)
      (by norm_num [createGroup.expiresAt, toISOString, truncate, maxTime])]
    decide

/-- C5, amended: for every non-zero number of hours `h`, whole or not, for
which `createGroup(_, _, h)` returns a group `g`, reading the clock as `C`
for `createdAt` and as `C2` for the expiry, and every reachable store that
holds `g`: `g.createdAt` is `C`, and a `cleanupExpiredGroups` call at a
clock `N` after the epoch removes `g` when `N > C2 + h * 3600000` and
leaves it stored when `N ≤ C2 + h * 3600000`; so with a clock that does not
run backwards (`C ≤ C2`) the group is still stored at every
`N ≤ createdAt + h * 3600000`. -/
theorem cleanupExpiredGroups_after_expiry (s : Store) (name : Option String)
    (refreshInterval : Option Int) (h : ℚ) (rnd : Nat → RandomValue) (fuel pos : Nat)
    (C C2 : Int) (g : Group) (s1 : Store) (hh : h ≠ 0)
    (hc : createGroup s name refreshInterval (some h) rnd fuel pos C C2 = some (g, s1))
    (s2 : Store) (h2 : Reachable s2) (hg : getGroup s2 g.id = some g) (N : Int) (hN : 0 < N) :
    g.createdAt = C ∧
    ((N : ℚ) > (C2 : ℚ) + h * 3600000 →
      groupExists (cleanupExpiredGroups s2 N).2 g.id = false) ∧
    ((N : ℚ) ≤ (C2 : ℚ) + h * 3600000 →
      groupExists (cleanupExpiredGroups s2 N).2 g.id = true ∧
      getGroup (cleanupExpiredGroups s2 N).2 g.id = some g) ∧
    (C ≤ C2 → (N : ℚ) ≤ (g.createdAt : ℚ) + h * 3600000 →
      groupExists (cleanupExpiredGroups s2 N).2 g.id = true ∧
      getGroup (cleanupExpiredGroups s2 N).2 g.id = some g) := by
  have hx := createGroup_expiresAt_some h C2 hh g.expiresAt
    (createGroup_some _ _ _ _ _ _ _ _ _ _ _ hc)
  have hcr := createGroup_createdAt _ _ _ _ _ _ _ _ _ _ _ hc
  have hkeep : (N : ℚ) ≤ (C2 : ℚ) + h * 3600000 →
      groupExists (cleanupExpiredGroups s2 N).2 g.id = true ∧
      getGroup (cleanupExpiredGroups s2 N).2 g.id = some g := by
    intro hle
    have hk := (cleanupExpiredGroups_keeps s2 (inv_of_reachable s2 h2) g N hg
      (by
        intro x hx2
        rw [hx] at hx2
        rw [← Option.some.inj hx2, truncate_lt_iff _ N hN]
        exact not_lt.mpr hle)).1
    exact ⟨groupExists_of_getGroup _ _ _ hk, hk⟩
  refine ⟨hcr, ?_, hkeep, ?_⟩
  · intro hgt
    exact cleanupExpiredGroups_removes s2 g N _ hg hx ((truncate_lt_iff _ N hN).mpr hgt)
  · intro hcc hle
    apply hkeep
    rw [hcr] at hle
    have : (C : ℚ) ≤ (C2 : ℚ) := by exact_mod_cast hcc
    linarith

theorem cleanupExpiredGroups_after_expiry_witness :
    (1 / 2 : ℚ) ≠ 0 ∧
    createGroup Store.empty none none (some (1 / 2)) Scenario.rnd 1 0 1000 1001
      = some ({ id := "AAAAAA", name := "Group AAAAAA", createdAt := 1000,
                expiresAt := some 1801001, refreshInterval := 30 },
              { groups := [("AAAAAA", { id := "AAAAAA", name := "Group AAAAAA",
                                        createdAt := 1000, expiresAt := some 1801001,
                                        refreshInterval := 30 })],
                members := [], locations := [] }) ∧
    (0 : Int) < 1801002 ∧
    ((1801002 : Int) : ℚ) > ((1001 : Int) : ℚ) + (1 / 2 : ℚ) * 3600000 ∧
    groupExists (cleanupExpiredGroups
      { groups := [("AAAAAA", { id := "AAAAAA", name := "Group AAAAAA",
                                createdAt := 1000, expiresAt := some 1801001,
                                refreshInterval := 30 })],
        members := [], locations := [] } 1801002).2 "AAAAAA" = false := by
  have hc : createGroup Store.empty none none (some (1 / 2)) Scenario.rnd 1 0 1000 1001
      = some ({ id := "AAAAAA", name := "Group AAAAAA", createdAt := 1000,
                expiresAt := some 1801001, refreshInterval := 30 },
              { groups := [("AAAAAA", { id := "AAAAAA", name := "Group AAAAAA",
                                        createdAt := 1000, expiresAt := some 1801001,
                                        refreshInterval := 30 })],
                members := [], locations := [] }) := by
    rw [createGroup_of_id Store.empty none none (some (1 / 2)) Scenario.rnd 1 0 1000 1001
      "AAAAAA" 6 (by decide) (some 1801001)
      (by norm_num [createGroup.expiresAt, toISOString, truncate, maxTime])]
    decide
  have hgt : ((1801002 : Int) : ℚ) > ((1001 : Int) : ℚ) + (1 / 2 : ℚ) * 3600000 := by norm_num
  exact ⟨by norm_num, hc, by decide, hgt,
    (cleanupExpiredGroups_after_expiry Store.empty none none (1 / 2) Scenario.rnd 1 0 1000 1001
      _ _ (by norm_num) hc _
      (Reachable.createGroup none none (some (1 / 2)) Scenario.rnd 1 0 1000 1001
        Reachable.empty Scenario.rnd_inUnit hc)
      (by decide) 1801002 (by decide)).2.1 hgt⟩

/-- C6: a group `g` that `createGroup` returned for no expiry (third
argument omitted or `null`) survives every run of expiry sweeps: from any
reachable store that holds `g`, after `cleanupExpiredGroups` calls at any
clock readings, `g` still exists with the same record, `getGroupMembers`
returns the same members, and each of them has the same location record. -/
theorem cleanupExpiredGroups_keeps_group_without_expiry (s : Store) (name : Option String)
    (refreshInterval : Option Int) (rnd : Nat → RandomValue) (fuel pos : Nat) (C C2 : Int)
    (g : Group) (s1 : Store)
    (hc : createGroup s name refreshInterval none rnd fuel pos C C2 = some (g, s1))
    (s2 : Store) (h2 : Reachable s2) (hg : getGroup s2 g.id = some g) (clocks : List Int) :
    groupExists (cleanupExpiredGroups.sweeps s2 clocks) g.id = true ∧
    getGroup (cleanupExpiredGroups.sweeps s2 clocks) g.id = some g ∧
    getGroupMembers (cleanupExpiredGroups.sweeps s2 clocks) g.id = getGroupMembers s2 g.id ∧
    ∀ member ∈ getGroupMembers s2 g.id,
      JsMap.get (cleanupExpiredGroups.sweeps s2 clocks).locations member.id
        = JsMap.get s2.locations member.id := by
  have he := createGroup_some _ _ _ _ _ _ _ _ _ _ _ hc
  have hx : g.expiresAt = none := by
    simp only [createGroup.expiresAt, Option.some.injEq] at he
    exact he.symm
  have main : ∀ (clocks : List Int) (s2 : Store), Reachable s2 → getGroup s2 g.id = some g →
      getGroup (cleanupExpiredGroups.sweeps s2 clocks) g.id = some g ∧
      getGroupMembers (cleanupExpiredGroups.sweeps s2 clocks) g.id = getGroupMembers s2 g.id ∧
      ∀ member ∈ getGroupMembers s2 g.id,
        JsMap.get (cleanupExpiredGroups.sweeps s2 clocks).locations member.id
          = JsMap.get s2.locations member.id := by
    intro clocks
    induction clocks with
    | nil => exact fun _ _ hg => ⟨hg, rfl, fun _ _ => rfl⟩
    | cons now rest ih =>
      intro s2 h2 hg
      obtain ⟨k1, k2, k3⟩ := cleanupExpiredGroups_keeps s2 (inv_of_reachable s2 h2) g now hg
        (by intro x hx2; rw [hx] at hx2; cases hx2)
      obtain ⟨r1, r2, r3⟩ := ih _ (Reachable.cleanupExpiredGroups now h2) k1
      refine ⟨r1, ?_, ?_⟩
      · show getGroupMembers (cleanupExpiredGroups.sweeps _ rest) g.id = _
        rw [r2, k2]
      · intro member hm
        show JsMap.get (cleanupExpiredGroups.sweeps _ rest).locations member.id = _
        rw [r3 member (by rw [k2]; exact hm), k3 member hm]
  obtain ⟨m1, m2, m3⟩ := main clocks s2 h2 hg
  exact ⟨groupExists_of_getGroup _ _ _ m1, m1, m2, m3⟩

theorem cleanupExpiredGroups_keeps_group_without_expiry_witness :
    createGroup Store.empty (some "Trip") (some 10) none Scenario.rnd 1 0 1000 1000
      = some (Scenario.groupA, Scenario.oneGroup) ∧
    getGroup Scenario.shared Scenario.groupA.id = some Scenario.groupA ∧
    groupExists (cleanupExpiredGroups.sweeps Scenario.shared [5000, 8640000000000000])
      Scenario.groupA.id = true :=
  ⟨by decide, by decide,
    (cleanupExpiredGroups_keeps_group_without_expiry Store.empty (some "Trip") (some 10)
      Scenario.rnd 1 0 1000 1000 Scenario.groupA Scenario.oneGroup (by decide) Scenario.shared
      Scenario.reachable_shared (by decide) [5000, 8640000000000000]).1⟩

/-- C7, as stated, fails when the clock equals a stored `updatedAt`: the
only location of the store has `updatedAt = 3000`, the clock 3000 is not
earlier than it, and `cleanupInactiveMembers(0)` at 3000 removes nothing and
returns 0 while one location is stored. -/
theorem cleanupInactiveMembers_zero_keeps_location_of_same_instant :
    (∀ e ∈ Scenario.shared.locations, e.2.updatedAt ≤ 3000) ∧
    cleanupInactiveMembers Scenario.shared (some 0) 3000 = (0, Scenario.shared) ∧
    Scenario.shared.locations.length = 1 :=
  ⟨by decide, by decide, by decide⟩

/-- C7, amended: for every store and every clock reading later than every
stored `updatedAt`, `cleanupInactiveMembers(0)` leaves `locations` empty and
returns the number of locations stored before the call; `groups` and
`members` are as before. -/
theorem cleanupInactiveMembers_zero_removes_all (s : Store) (now : Int)
    (h : ∀ e ∈ s.locations, e.2.updatedAt < now) :
    cleanupInactiveMembers s (some 0) now
      = (s.locations.length, { s with locations := [] }) := by
  unfold cleanupInactiveMembers
  simp only [Option.getD_some]
  rw [cleanupInactiveMembers_loop_all now 0 s.locations (0, s)
    (by intro e he; have := h e he; omega)]
  refine Prod.ext (by simp) ?_
  show ({ s with locations := JsMap.filterKeys s.locations _ } : Store) = _
  congr 1
  unfold JsMap.filterKeys
  rw [List.filter_eq_nil_iff]
  intro e he
  have : e.1 ∈ JsMap.keys s.locations := List.mem_map_of_mem _ he
  simp [this]

theorem cleanupInactiveMembers_zero_removes_all_witness :
    (∀ e ∈ Scenario.shared.locations, e.2.updatedAt < 3001) ∧
    cleanupInactiveMembers Scenario.shared (some 0) 3001
      = (1, { Scenario.shared with locations := [] }) :=
  ⟨by decide, cleanupInactiveMembers_zero_removes_all Scenario.shared 3001 (by decide)⟩

/-- C8: with every random value in `[0,1)`: whenever `generateGroupId`
returns an id, the id has exactly 6 characters, each of them one of the 36
characters of `chars` (`A`-`Z`, `0`-`9`), and it is not the key of a stored
group.  It does return as soon as one attempt within the fuel draws an id
that is not a stored key. -/
theorem generateGroupId_spec (s : Store) (rnd : Nat → RandomValue) (hr : ∀ i, (rnd i).inUnit)
    (pos : Nat) :
    (∀ fuel id pos', generateGroupId s.groups rnd fuel pos = some (id, pos') →
      id.length = 6 ∧ (∀ c ∈ id.data, c ∈ chars.data) ∧ groupExists s id = false) ∧
    (∀ k fuel, groupExists s (generateGroupId.loop rnd 6 (pos + 6 * k) "") = false → k < fuel →
      (generateGroupId s.groups rnd fuel pos).isSome = true) ∧
    chars.length = 36 := by
  refine ⟨?_, ?_, chars_length⟩
  · intro fuel id pos' h
    obtain ⟨h1, p, hp⟩ := generateGroupId_some _ _ _ _ _ _ h
    obtain ⟨l1, l2⟩ := loop_spec rnd hr 6 p ""
    rw [← hp] at l1 l2
    refine ⟨by simpa using l1, ?_, h1⟩
    intro c hc
    rcases l2 c hc with h3 | h3
    · cases h3
    · exact h3
  · intro k fuel hk hf
    exact generateGroupId_returns s.groups rnd k pos fuel hk hf

theorem generateGroupId_spec_witness :
    generateGroupId Scenario.oneGroup.groups Scenario.rnd 2 0 = some ("BBBBBB", 12) ∧
    ("BBBBBB".length = 6 ∧ (∀ c ∈ "BBBBBB".data, c ∈ chars.data) ∧
      groupExists Scenario.oneGroup "BBBBBB" = false) :=
  ⟨by decide,
    (generateGroupId_spec Scenario.oneGroup Scenario.rnd Scenario.rnd_inUnit 0).1 2 "BBBBBB" 12
      (by decide)⟩

/-- C9: in every reachable store, every key of `locations` is the id of a
stored member, and the `groupId` of every stored member is the id of a
stored group. -/
theorem referential_integrity (s : Store) (h : Reachable s) :
    (∀ k ∈ JsMap.keys s.locations, ∃ member, getMember s k = some member ∧ member.id = k) ∧
    (∀ member ∈ JsMap.values s.members,
      ∃ group, getGroup s member.groupId = some group ∧ group.id = member.groupId) := by
  have hs := inv_of_reachable s h
  constructor
  · intro k hk
    obtain ⟨e, he, rfl⟩ := List.mem_map.mp hk
    obtain ⟨member, hm⟩ := JsMap.get_of_has _ _ (hs.locationMember e he)
    exact ⟨member, hm, hs.memberKey _ (JsMap.mem_of_get _ _ _ hm)⟩
  · intro member hm
    obtain ⟨e, he, rfl⟩ := List.mem_map.mp hm
    obtain ⟨group, hg⟩ := JsMap.get_of_has _ _ (hs.memberGroup e he)
    exact ⟨group, hg, hs.groupKey _ (JsMap.mem_of_get _ _ _ hg)⟩

theorem referential_integrity_witness :
    Reachable Scenario.shared ∧
    ((∀ k ∈ JsMap.keys Scenario.shared.locations,
        ∃ member, getMember Scenario.shared k = some member ∧ member.id = k) ∧
     (∀ member ∈ JsMap.values Scenario.shared.members,
        ∃ group, getGroup Scenario.shared member.groupId = some group ∧
          group.id = member.groupId)) :=
  ⟨Scenario.reachable_shared, referential_integrity Scenario.shared Scenario.reachable_shared⟩

/-- C10, at an input where the code departs from it.  After a member id
that already shares a position in group `AAAAAA` joins group `BBBBBB`, the
store is reachable, the location stored under `m1` names group `AAAAAA` and
the member stored under `m1` names group `BBBBBB`. -/
theorem rejoined_member_location_names_old_group :
    Reachable Scenario.rejoined ∧
    ∃ location member,
      JsMap.get Scenario.rejoined.locations "m1" = some location ∧
      getMember Scenario.rejoined location.memberId = some member ∧
      location.groupId = "AAAAAA" ∧ member.groupId = "BBBBBB" ∧
      location.groupId ≠ member.groupId :=
  ⟨Scenario.reachable_rejoined, _, _, rfl, rfl, rfl, rfl, by decide⟩

/-! ## More facts about the sweeps -/

/-- In a map, dropping the keys of the entries that pass `q` drops exactly
those entries. -/
theorem JsMap.filterKeys_not_keys_filter {V : Type} (m : JsMap V) (hm : JsMap.WF m)
    (q : String × V → Bool) :
    JsMap.filterKeys m (fun k => !(JsMap.keys (m.filter q)).contains k)
      = m.filter (fun e => !q e) := by
  unfold JsMap.filterKeys
  apply List.filter_congr
  intro e he
  cases hq : q e with
  | true =>
    have : e.1 ∈ JsMap.keys (m.filter q) :=
      List.mem_map_of_mem _ (List.mem_filter.mpr ⟨he, hq⟩)
    simp [this]
  | false =>
    have : e.1 ∉ JsMap.keys (m.filter q) := by
      intro hmem
      obtain ⟨e', he', hk⟩ := List.mem_map.mp hmem
      obtain ⟨h1, h2⟩ := List.mem_filter.mp he'
      have h3 : (e.1, e'.2) ∈ m := by rw [← hk]; exact h1
      have h4 := JsMap.eq_of_mem_of_mem m hm e.1 e'.2 e.2 h3 he
      have : e' = e := Prod.ext hk h4
      rw [this, hq] at h2
      cases h2
    simp [this]

/-- The loop of `cleanupInactiveMembers` counts the visited entries that
are past the threshold and deletes their keys. -/
theorem cleanupInactiveMembers_loop (now threshold : Int) (l : List (String × Location))
    (acc : Nat × Store) :
    l.foldl
        (fun (acc : Nat × Store) entry =>
          if now - entry.2.updatedAt > threshold then
            (acc.1 + 1, { acc.2 with locations := acc.2.locations.delete entry.1 })
          else acc)
        acc
      = (acc.1 + (l.filter (fun e => decide (now - e.2.updatedAt > threshold))).length,
          { acc.2 with
            locations := JsMap.filterKeys acc.2.locations
              (fun k => !(JsMap.keys
                (l.filter (fun e => decide (now - e.2.updatedAt > threshold)))).contains k) }) := by
  induction l generalizing acc with
  | nil =>
    simp only [List.foldl_nil, List.filter_nil, List.length_nil, Nat.add_zero, JsMap.keys,
      List.map_nil, List.contains_nil, Bool.not_false]
    rw [JsMap.filterKeys_true _ _ (fun _ _ => rfl)]
  | cons a l ih =>
    rw [List.foldl_cons]
    by_cases ha : now - a.2.updatedAt > threshold
    · rw [if_pos ha, ih]
      have hd : decide (now - a.2.updatedAt > threshold) = true := decide_eq_true ha
      simp only [List.filter_cons, hd, if_true, JsMap.delete_eq_filterKeys,
        JsMap.filterKeys_filterKeys, JsMap.keys, List.map_cons, List.contains_cons, Bool.not_or,
        List.length_cons]
      refine Prod.ext (by simp only; omega) ?_
      rfl
    · rw [if_neg ha, ih]
      have hd : decide (now - a.2.updatedAt > threshold) = false := decide_eq_false ha
      simp only [List.filter_cons, hd, Bool.false_eq_true, if_false]

/-- The loop of `cleanupExpiredGroups` counts the visited groups whose
expiry is past. -/
theorem cleanupExpiredGroups_loop_count (now : Int) (l : List (String × Group))
    (acc : Nat × Store) :
    (l.foldl
        (fun (acc : Nat × Store) entry =>
          match entry.2.expiresAt with
          | some expiresAt =>
            if expiresAt < now then (acc.1 + 1, (deleteGroup acc.2 entry.1).2) else acc
          | none => acc)
        acc).1
      = acc.1 + (l.filter (fun e => e.2.isExpired now)).length := by
  induction l generalizing acc with
  | nil => rfl
  | cons a l ih =>
    rw [List.foldl_cons, ih, List.filter_cons]
    unfold Group.isExpired
    cases hx : a.2.expiresAt with
    | none => simp
    | some x =>
      by_cases hlt : x < now
      · simp only [hlt, if_true, decide_True, List.length_cons]
        omega
      · simp [hlt]

/-- In a map the entries filed under a key that holds `v` are `(k, v)` alone. -/
theorem JsMap.filter_key_eq {V : Type} (m : JsMap V) (hm : JsMap.WF m) (k : String) (v : V)
    (h : JsMap.get m k = some v) : m.filter (fun e => e.1 == k) = [(k, v)] := by
  induction m with
  | nil => cases h
  | cons e m ih =>
    have hnd : e.1 ∉ JsMap.keys m ∧ (JsMap.keys m).Nodup := List.nodup_cons.mp hm
    rw [JsMap.get_cons] at h
    by_cases he : e.1 = k
    · rw [if_pos he] at h
      have h2 : e = (k, v) := Prod.ext he (Option.some.inj h)
      have h3 : m.filter (fun e => e.1 == k) = [] := by
        rw [List.filter_eq_nil_iff]
        intro a ha hk
        apply hnd.1
        have hak : a.1 = k := by simpa using hk
        rw [he, ← hak]
        exact List.mem_map_of_mem _ ha
      rw [List.filter_cons, h3, h2]
      simp
    · rw [if_neg he] at h
      rw [List.filter_cons, ih hnd.2 h]
      simp [he]

theorem JsMap.mem_keys_filter_iff {V : Type} (m : JsMap V) (hm : JsMap.WF m) (k : String)
    (v : V) (h : JsMap.get m k = some v) (q : String × V → Bool) :
    k ∈ JsMap.keys (m.filter q) ↔ q (k, v) = true := by
  constructor
  · intro hmem
    obtain ⟨e, he, hk⟩ := List.mem_map.mp hmem
    obtain ⟨h1, h2⟩ := List.mem_filter.mp he
    have h3 : (k, e.2) ∈ m := by rw [← hk]; exact h1
    have h4 := JsMap.eq_of_mem_of_mem m hm k e.2 v h3 (JsMap.mem_of_get _ _ _ h)
    have : e = (k, v) := Prod.ext hk h4
    rw [← this]
    exact h2
  · intro hq
    exact List.mem_map.mpr ⟨(k, v), List.mem_filter.mpr ⟨JsMap.mem_of_get _ _ _ h, hq⟩, rfl⟩

/-- What `cleanupInactiveMembers` does to a store whose `locations` is a map. -/
theorem cleanupInactiveMembers_eq (s : Store) (t : Option Int) (N : Int)
    (h : JsMap.WF s.locations) :
    cleanupInactiveMembers s t N
      = ((s.locations.filter (fun e => e.2.isInactive t N)).length,
          { s with locations := s.locations.filter (fun e => !e.2.isInactive t N) }) := by
  unfold cleanupInactiveMembers
  dsimp only
  rw [cleanupInactiveMembers_loop]
  refine Prod.ext (by simp [Location.isInactive]) ?_
  show ({ s with locations := JsMap.filterKeys s.locations _ } : Store) = _
  congr 1
  exact JsMap.filterKeys_not_keys_filter s.locations h _

/-- Every location of a well-formed store has a stored member. -/
theorem member_of_location (s : Store) (hs : Inv s) (e : String × Location)
    (he : e ∈ s.locations) : ∃ member, getMember s e.2.memberId = some member := by
  rw [hs.locationKey e he]
  exact JsMap.get_of_has _ _ (hs.locationMember e he)

/-- In a well-formed store that holds a location of group `g` under `m`,
`getGroupLocations(g)` has exactly one entry with `memberId` `m`, and it
carries that location. -/
theorem getGroupLocations_filter_member (s : Store) (hs : Inv s) (g m : String)
    (location : Location) (hl : JsMap.get s.locations m = some location)
    (hg : location.groupId = g) :
    ∃ entry, (getGroupLocations s g).filter (fun e => e.memberId == m) = [entry] ∧
      entry.memberId = m ∧ entry.groupId = g ∧ entry.lat = location.lat ∧
      entry.lng = location.lng ∧ entry.sharingEnabled = location.sharingEnabled ∧
      entry.updatedAt = location.updatedAt := by
  have hkey : location.memberId = m := hs.locationKey _ (JsMap.mem_of_get _ _ _ hl)
  have h1 : s.locations.filter (fun e => e.2.memberId == m) = [(m, location)] := by
    rw [← JsMap.filter_key_eq s.locations hs.locationsWF m location hl]
    apply List.filter_congr
    intro e he
    rw [hs.locationKey e he]
  have h2 : ((JsMap.values s.locations).filter (fun l => l.groupId == g)).filter
      (fun l => l.memberId == m) = [location] := by
    rw [List.filter_filter]
    have : (fun a : Location => a.memberId == m && a.groupId == g)
        = (fun a => a.groupId == g && a.memberId == m) := by
      funext a
      exact Bool.and_comm _ _
    rw [this, ← List.filter_filter]
    unfold JsMap.values
    rw [List.filter_map]
    have : ((fun l : Location => l.memberId == m) ∘ Prod.snd)
        = (fun e : String × Location => e.2.memberId == m) := rfl
    rw [this, h1]
    simp [hg]
  unfold getGroupLocations
  rw [List.filter_map]
  have : ((fun e : GroupLocation => e.memberId == m) ∘
      (fun location : Location =>
        ({ memberId := location.memberId
           groupId := location.groupId
           lat := location.lat
           lng := location.lng
           sharingEnabled :=
             if location.sharingEnabled = JsValue.undefined then JsValue.boolean true
             else location.sharingEnabled
           updatedAt := location.updatedAt
           displayName := match getMember s location.memberId with
             | some member => member.displayName
             | none => "Unknown" } : GroupLocation)))
      = (fun l : Location => l.memberId == m) := rfl
  rw [this, h2, List.map_cons, List.map_nil]
  exact ⟨_, rfl, hkey, hg, rfl, rfl,
    if_neg (hs.locationFlag _ (JsMap.mem_of_get _ _ _ hl)), rfl⟩

/-- When the id is drawn and the expiry instant is not a valid date,
`createGroup` throws. -/
theorem createGroup_throws (s : Store) (name : Option String)
    (refreshInterval : Option Int) (expiryDuration : Option ℚ) (rnd : Nat → RandomValue)
    (fuel pos : Nat) (now now2 : Int) (id : String) (pos' : Nat)
    (hgen : generateGroupId s.groups rnd fuel pos = some (id, pos'))
    (hx : createGroup.expiresAt expiryDuration now2 = none) :
    createGroup s name refreshInterval expiryDuration rnd fuel pos now now2 = none := by
  unfold createGroup
  rw [hgen]
  unfold createGroup.withId
  rw [hx]

theorem createGroup_expiresAt_of_ne_zero (h : ℚ) (now2 : Int) (h0 : h ≠ 0)
    (hvalid : -maxTime ≤ (now2 : ℚ) + h * 3600000 ∧ (now2 : ℚ) + h * 3600000 ≤ maxTime) :
    createGroup.expiresAt (some h) now2 = some (some (truncate ((now2 : ℚ) + h * 3600000))) := by
  have e : (now2 : ℚ) + h * 60 * 60 * 1000 = (now2 : ℚ) + h * 3600000 := by ring
  unfold createGroup.expiresAt
  simp only [h0, if_false, e]
  unfold toISOString
  rw [if_pos hvalid]
  rfl

theorem createGroup_expiresAt_of_valid (expiryDuration : Option ℚ) (now2 : Int)
    (hvalid : ∀ h, expiryDuration = some h → h ≠ 0 →
      -maxTime ≤ (now2 : ℚ) + h * 3600000 ∧ (now2 : ℚ) + h * 3600000 ≤ maxTime) :
    ∃ expiresAt, createGroup.expiresAt expiryDuration now2 = some expiresAt ∧
      (expiryDuration = none → expiresAt = none) := by
  cases expiryDuration with
  | none => exact ⟨none, rfl, fun _ => rfl⟩
  | some h =>
    by_cases h0 : h = 0
    · exact ⟨none, by simp [createGroup.expiresAt, h0], fun hn => by cases hn⟩
    · exact ⟨_, createGroup_expiresAt_of_ne_zero h now2 h0 (hvalid h rfl h0),
        fun hn => by cases hn⟩

theorem Scenario.createGroup_timed :
    createGroup Store.empty none none (some 2) Scenario.rnd 1 0 1000 1000
      = some (Scenario.groupTimed, Scenario.timedGroup) := by
  rw [createGroup_of_id Store.empty none none (some 2) Scenario.rnd 1 0 1000 1000 "AAAAAA" 6
    (by decide) (some 7201000)
    (by norm_num [createGroup.expiresAt, toISOString, truncate, maxTime])]
  decide

/-- C11: in every reachable store, `getGroupLocations(g)` lists, in the
order of the map, the stored locations whose `groupId` is `g`, one entry
for each and no other entry; an entry has the `memberId`, `groupId`, `lat`,
`lng`, `sharingEnabled` and `updatedAt` of its location and the
`displayName` of the member stored under that `memberId`.  And right after
a successful `updateLocation(m, g, lat, lng, s)` the list has exactly one
entry with `memberId` `m`, which has those `lat`, `lng` and `s`. -/
theorem getGroupLocations_spec (s : Store) (h : Reachable s) (g : String) :
    List.Forall₂
      (fun (location : Location) (entry : GroupLocation) =>
        entry.memberId = location.memberId ∧ entry.groupId = location.groupId ∧
        entry.lat = location.lat ∧ entry.lng = location.lng ∧
        entry.sharingEnabled = location.sharingEnabled ∧
        entry.updatedAt = location.updatedAt ∧
        ∃ member, getMember s location.memberId = some member ∧
          entry.displayName = member.displayName)
      ((JsMap.values s.locations).filter (fun location => location.groupId == g))
      (getGroupLocations s g) ∧
    ∀ (m : String) (lat lng : ℚ) (sharingEnabled : Option Bool) (now : Int)
      (location : Location) (s' : Store),
      updateLocation s m g lat lng sharingEnabled now = (some location, s') →
      ∃ entry, (getGroupLocations s' g).filter (fun e => e.memberId == m) = [entry] ∧
        entry.memberId = m ∧ entry.lat = lat ∧ entry.lng = lng ∧
        entry.sharingEnabled = JsValue.boolean (sharingEnabled.getD true) := by
  have hs := inv_of_reachable s h
  constructor
  · unfold getGroupLocations
    rw [List.forall₂_map_right_iff, List.forall₂_same]
    intro location hl
    obtain ⟨e, he, rfl⟩ := List.mem_map.mp (List.mem_filter.mp hl).1
    refine ⟨rfl, rfl, rfl, rfl, if_neg (hs.locationFlag e he), rfl, ?_⟩
    obtain ⟨member, hm⟩ := member_of_location s hs e he
    exact ⟨member, hm, by simp only [hm]⟩
  · intro m lat lng sharingEnabled now location s' hu
    have hr : Reachable s' := by
      have := Reachable.updateLocation m g lat lng sharingEnabled now h
      rwa [hu] at this
    obtain ⟨member, hm, hg⟩ := updateLocation_some _ _ _ _ _ _ _ _ _ hu
    rw [updateLocation_of_member s m g lat lng sharingEnabled now member hm hg] at hu
    simp only [Prod.mk.injEq, Option.some.injEq] at hu
    obtain ⟨hloc, hst⟩ := hu
    have hget : JsMap.get s'.locations m = some location := by
      rw [← hst, ← hloc]
      exact JsMap.get_set_self _ _ _
    have hgid : location.groupId = g := by rw [← hloc]
    obtain ⟨entry, e1, e2, _, e4, e5, e6, _⟩ :=
      getGroupLocations_filter_member s' (inv_of_reachable s' hr) g m location hget hgid
    refine ⟨entry, e1, e2, ?_, ?_, ?_⟩
    · rw [e4, ← hloc]
    · rw [e5, ← hloc]
    · rw [e6, ← hloc]

theorem getGroupLocations_spec_witness :
    Reachable Scenario.joined ∧
    updateLocation Scenario.joined "m1" "AAAAAA" 37 (-122) none 3000
      = (some { memberId := "m1", groupId := "AAAAAA", lat := 37, lng := -122,
                sharingEnabled := .boolean true, updatedAt := 3000 }, Scenario.shared) ∧
    ∃ entry, (getGroupLocations Scenario.shared "AAAAAA").filter (fun e => e.memberId == "m1")
        = [entry] ∧
      entry.memberId = "m1" ∧ entry.lat = 37 ∧ entry.lng = -122 ∧
      entry.sharingEnabled = JsValue.boolean true :=
  ⟨Scenario.reachable_joined, by decide,
    (getGroupLocations_spec Scenario.joined Scenario.reachable_joined "AAAAAA").2 "m1" 37 (-122)
      none 3000
      { memberId := "m1", groupId := "AAAAAA", lat := 37, lng := -122,
        sharingEnabled := .boolean true, updatedAt := 3000 }
      Scenario.shared (by decide)⟩

/-- C12, as stated, fails at two inputs.  With an expiry of 2400000000
hours at clock 1000 the id generation returns, but `createGroup` throws
(the expiry instant is past the last valid date) and returns no group.
With the empty string as name the group is named `Group AAAAAA`, not by
the supplied name. -/
theorem createGroup_throws_on_far_expiry_and_renames_empty_name :
    (generateGroupId Store.empty.groups Scenario.rnd 1 0 = some ("AAAAAA", 6) ∧
      createGroup Store.empty none none (some 2400000000) Scenario.rnd 1 0 1000 1000 = none) ∧
    (createGroup Store.empty (some "") none none Scenario.rnd 1 0 1000 1000
        = some (Scenario.groupZero, Scenario.zeroHours) ∧
      Scenario.groupZero.name = "Group AAAAAA" ∧ Scenario.groupZero.name ≠ "") :=
  ⟨⟨by decide,
      createGroup_throws Store.empty none none (some 2400000000) Scenario.rnd 1 0 1000 1000
        "AAAAAA" 6 (by decide)
        (by norm_num [createGroup.expiresAt, toISOString, truncate, maxTime])⟩,
    by decide, by decide, by decide⟩

/-- C12, amended: for every store and arguments on which the id generation
returns and the expiry instant `now2 + h * 3600000` of a non-zero expiry
`h` is a valid date (`now2` is the clock reading taken for the expiry),
`createGroup` returns a group `G` with the drawn id;
`getGroup(G.id)` is `G` afterwards; `G.refreshInterval` is the supplied
value, 30 when omitted; `G.name` is the supplied name when it is not
empty, else `"Group "` followed by `G.id`; `G.expiresAt` is `null` when no
expiry is supplied; every group stored before is stored under its id with
the same record, and its id is not `G.id`; `members` and `locations` are as
before. -/
theorem createGroup_spec (s : Store) (name : Option String)
    (refreshInterval : Option Int) (expiryDuration : Option ℚ) (rnd : Nat → RandomValue)
    (fuel pos : Nat) (now now2 : Int) (id : String) (pos' : Nat)
    (hgen : generateGroupId s.groups rnd fuel pos = some (id, pos'))
    (hvalid : ∀ h, expiryDuration = some h → h ≠ 0 →
      -maxTime ≤ (now2 : ℚ) + h * 3600000 ∧ (now2 : ℚ) + h * 3600000 ≤ maxTime) :
    ∃ G s', createGroup s name refreshInterval expiryDuration rnd fuel pos now now2
        = some (G, s') ∧
      G.id = id ∧
      getGroup s' G.id = some G ∧
      G.refreshInterval = refreshInterval.getD 30 ∧
      G.name = (match name with
        | some n => if n = "" then "Group " ++ G.id else n
        | none => "Group " ++ G.id) ∧
      (expiryDuration = none → G.expiresAt = none) ∧
      (∀ k g0, getGroup s k = some g0 → getGroup s' k = some g0 ∧ k ≠ G.id) ∧
      s'.members = s.members ∧ s'.locations = s.locations := by
  obtain ⟨expiresAt, hx, hnone⟩ := createGroup_expiresAt_of_valid expiryDuration now2 hvalid
  refine ⟨_, _, createGroup_of_id s name refreshInterval expiryDuration rnd fuel pos now now2 id
    pos' hgen expiresAt hx, rfl, ?_, rfl, rfl, hnone, ?_, rfl, rfl⟩
  · exact JsMap.get_set_self _ _ _
  · intro k g0 hk
    have hne : k ≠ id := by
      intro heq
      have h1 := (generateGroupId_some _ _ _ _ _ _ hgen).1
      have h2 := JsMap.has_of_get _ _ _ hk
      rw [heq, h1] at h2
      cases h2
    refine ⟨?_, hne⟩
    show JsMap.get (JsMap.set s.groups id _) k = some g0
    rw [JsMap.get_set_of_ne _ _ _ _ hne]
    exact hk

theorem createGroup_spec_witness :
    generateGroupId Scenario.oneGroup.groups Scenario.rnd 2 0 = some ("BBBBBB", 12) ∧
    ∃ G s', createGroup Scenario.oneGroup (some "Trek") none (some 2) Scenario.rnd 2 0 1500 1501
        = some (G, s') ∧
      G.id = "BBBBBB" ∧
      getGroup s' G.id = some G ∧
      G.refreshInterval = 30 ∧
      G.name = "Trek" ∧
      ((some (2 : ℚ)) = none → G.expiresAt = none) ∧
      (∀ k g0, getGroup Scenario.oneGroup k = some g0 → getGroup s' k = some g0 ∧ k ≠ G.id) ∧
      s'.members = Scenario.oneGroup.members ∧ s'.locations = Scenario.oneGroup.locations :=
  ⟨by decide,
    createGroup_spec Scenario.oneGroup (some "Trek") none (some 2) Scenario.rnd 2 0 1500 1501
      "BBBBBB" 12 (by decide)
      (by
        intro h hh _
        have : h = 2 := (Option.some.inj hh).symm
        subst this
        norm_num [maxTime])⟩

/-- C13: on a store whose `locations` is a map, `cleanupInactiveMembers(t)`
at clock `N` (with `t` = 300000 when omitted) removes exactly the locations
with `N - updatedAt > t`, keeps every other location as it is and in its
place, returns the number of locations it removed, and leaves `groups` and
`members` as they are. -/
theorem cleanupInactiveMembers_spec (s : Store) (t : Option Int) (N : Int)
    (h : JsMap.WF s.locations) :
    cleanupInactiveMembers s t N
      = ((s.locations.filter (fun e => decide (N - e.2.updatedAt > t.getD 300000))).length,
          { groups := s.groups
            members := s.members
            locations :=
              s.locations.filter (fun e => !decide (N - e.2.updatedAt > t.getD 300000)) }) :=
  cleanupInactiveMembers_eq s t N h

theorem cleanupInactiveMembers_spec_witness :
    JsMap.WF Scenario.shared.locations ∧
    cleanupInactiveMembers Scenario.shared (some 1000) 4001
      = ((Scenario.shared.locations.filter
            (fun e => decide (4001 - e.2.updatedAt > (some (1000 : Int)).getD 300000))).length,
          { groups := Scenario.shared.groups
            members := Scenario.shared.members
            locations := Scenario.shared.locations.filter
              (fun e => !decide (4001 - e.2.updatedAt > (some (1000 : Int)).getD 300000)) }) :=
  ⟨(inv_of_reachable _ Scenario.reachable_shared).locationsWF,
    cleanupInactiveMembers_spec Scenario.shared (some 1000) 4001
      (inv_of_reachable _ Scenario.reachable_shared).locationsWF⟩

/-! ## Facts for the later claims -/

theorem JsMap.get_filter_not {V : Type} (m : JsMap V) (hm : JsMap.WF m) (k : String) (v : V)
    (h : JsMap.get m k = some v) (q : String × V → Bool) :
    JsMap.get (m.filter (fun e => !q e)) k = if q (k, v) = true then none else some v := by
  rw [← JsMap.filterKeys_not_keys_filter m hm q, JsMap.get_filterKeys]
  by_cases hq : q (k, v) = true
  · have hmem := (JsMap.mem_keys_filter_iff m hm k v h q).mpr hq
    simp [hq, hmem]
  · have hmem : k ∉ JsMap.keys (m.filter q) :=
      fun hm2 => hq ((JsMap.mem_keys_filter_iff m hm k v h q).mp hm2)
    simp [hq, hmem, h]

/-- With a boolean flag the general `updateLocation` returns what the typed
one returns and leaves the same store. -/
theorem updateLocation_anyFlag_boolean (s : Store) (m g : String) (lat lng : ℚ) (b : Bool)
    (now : Int) :
    updateLocation.anyFlag s m g lat lng (JsValue.boolean b) now
      = (.returned (updateLocation s m g lat lng (some b) now).1,
          (updateLocation s m g lat lng (some b) now).2) := by
  unfold updateLocation.anyFlag updateLocation
  split
  · rfl
  · split
    · rfl
    · simp [JsValue.printable]

/-- With the flag omitted the general `updateLocation` returns what the
typed one returns and leaves the same store. -/
theorem updateLocation_anyFlag_undefined (s : Store) (m g : String) (lat lng : ℚ) (now : Int) :
    updateLocation.anyFlag s m g lat lng JsValue.undefined now
      = (.returned (updateLocation s m g lat lng none now).1,
          (updateLocation s m g lat lng none now).2) := by
  unfold updateLocation.anyFlag updateLocation
  split
  · rfl
  · split
    · rfl
    · simp [JsValue.printable]

/-- The flag that `updateLocation` stores: the default `true` replaces an
omitted one. -/
theorem updateLocation_anyFlag_of_member (s : Store) (m g : String) (lat lng : ℚ)
    (sharingEnabled : JsValue) (now : Int) (member : Member)
    (hm : getMember s m = some member) (hg : member.groupId = g) :
    ∃ location : Location,
      location.memberId = m ∧ location.groupId = g ∧ location.lat = lat ∧
      location.lng = lng ∧
      location.sharingEnabled = (if sharingEnabled = JsValue.undefined then JsValue.boolean true
        else sharingEnabled) ∧
      location.updatedAt = (match JsMap.get s.locations m with
        | some existing => existing.updatedAt
        | none => now) ∧
      updateLocation.anyFlag s m g lat lng sharingEnabled now
        = (if location.sharingEnabled.printable = true then .returned (some location)
            else .threw,
           { s with locations := JsMap.set s.locations m location }) := by
  refine ⟨{ memberId := m, groupId := g, lat := lat, lng := lng,
            sharingEnabled := (if sharingEnabled = JsValue.undefined then JsValue.boolean true
              else sharingEnabled),
            updatedAt := (match JsMap.get s.locations m with
              | some existing => existing.updatedAt
              | none => now) }, rfl, rfl, rfl, rfl, rfl, rfl, ?_⟩
  unfold updateLocation.anyFlag
  rw [hm]
  dsimp only
  rw [if_neg (by simp [hg])]
  generalize (if sharingEnabled = JsValue.undefined then JsValue.boolean true
    else sharingEnabled) = flag
  by_cases hp : flag.printable = true
  · rw [if_pos hp, if_pos hp]
  · rw [if_neg hp, if_neg hp]

/-- When the member is not stored, or belongs to another group,
`updateLocation` returns `null` and leaves the store as it was. -/
theorem updateLocation_anyFlag_of_foreign (s : Store) (m g : String) (lat lng : ℚ)
    (sharingEnabled : JsValue) (now : Int)
    (h : ∀ member, getMember s m = some member → member.groupId ≠ g) :
    updateLocation.anyFlag s m g lat lng sharingEnabled now = (.returned none, s) := by
  unfold updateLocation.anyFlag
  split
  · rfl
  · rename_i member hm
    rw [if_pos (by simpa using h member hm)]

/-- What `updateLocation` with any flag leaves under `k`: the location that
was there, or, when `k` is the updated member, a record with the
`updatedAt` of the one that was there. -/
theorem updateLocation_anyFlag_location (s : Store) (m g : String) (lat lng : ℚ)
    (sharingEnabled : JsValue) (now : Int) (k : String) (l : Location)
    (hl : JsMap.get s.locations k = some l) :
    ∃ next, JsMap.get (updateLocation.anyFlag s m g lat lng sharingEnabled now).2.locations k
        = some next ∧ next.updatedAt = l.updatedAt := by
  by_cases h : ∀ member, getMember s m = some member → member.groupId ≠ g
  · rw [updateLocation_anyFlag_of_foreign s m g lat lng sharingEnabled now h]
    exact ⟨l, hl, rfl⟩
  · simp only [not_forall, not_not] at h
    obtain ⟨member, hm, hg⟩ := h
    obtain ⟨location, _, _, _, _, _, hu, he⟩ :=
      updateLocation_anyFlag_of_member s m g lat lng sharingEnabled now member hm hg
    rw [he]
    dsimp only
    by_cases hk : k = m
    · subst hk
      refine ⟨location, JsMap.get_set_self _ _ _, ?_⟩
      rw [hu]
      simp only [hl]
    · exact ⟨l, by rw [JsMap.get_set_of_ne _ _ _ _ hk]; exact hl, rfl⟩

/-- The first write of a location stamps it with the clock reading of the
call. -/
theorem updateLocation_anyFlag_first (s : Store) (m g : String) (lat lng : ℚ)
    (sharingEnabled : JsValue) (now : Int) (hnone : JsMap.get s.locations m = none)
    (l : Location)
    (hl : JsMap.get (updateLocation.anyFlag s m g lat lng sharingEnabled now).2.locations m
      = some l) :
    l.updatedAt = now := by
  by_cases h : ∀ member, getMember s m = some member → member.groupId ≠ g
  · rw [updateLocation_anyFlag_of_foreign s m g lat lng sharingEnabled now h, hnone] at hl
    cases hl
  · simp only [not_forall, not_not] at h
    obtain ⟨member, hm, hg⟩ := h
    obtain ⟨location, _, _, _, _, _, hu, he⟩ :=
      updateLocation_anyFlag_of_member s m g lat lng sharingEnabled now member hm hg
    rw [he] at hl
    dsimp only at hl
    rw [JsMap.get_set_self] at hl
    cases hl
    rw [hu]
    simp only [hnone]

/-- A property that one visited element establishes and every step keeps,
both under an invariant of the fold, holds at the end of the fold. -/
theorem foldl_established_inv {α β : Type} (I Q : β → Prop) (f : β → α → β) (l : List α)
    (init : β) (e0 : α) (he0 : e0 ∈ l) (hinit : I init)
    (hI : ∀ acc e, I acc → I (f acc e))
    (hset : ∀ acc, I acc → Q (f acc e0))
    (hkeep : ∀ acc e, Q acc → Q (f acc e)) : Q (l.foldl f init) := by
  induction l generalizing init with
  | nil => cases he0
  | cons a l ih =>
    rw [List.foldl_cons]
    rcases List.mem_cons.mp he0 with h | h
    · subst h
      apply foldl_invariant Q f l _ (hset init hinit)
      intro acc e _ hacc
      exact hkeep acc e hacc
    · exact ih _ h (hI init a hinit)

theorem getMember_deleteGroup (s : Store) (k mid : String) :
    getMember (deleteGroup s k).2 mid = none ∨
      getMember (deleteGroup s k).2 mid = getMember s mid := by
  cases hk : groupExists s k with
  | false => rw [deleteGroup_of_missing s k hk]; exact Or.inr rfl
  | true =>
    rw [deleteGroup_of_exists s k hk]
    unfold getMember
    dsimp only
    rw [JsMap.get_filterKeys]
    split
    · exact Or.inr rfl
    · exact Or.inl rfl

theorem location_deleteGroup (s : Store) (k mid : String) :
    JsMap.get (deleteGroup s k).2.locations mid = none ∨
      JsMap.get (deleteGroup s k).2.locations mid = JsMap.get s.locations mid := by
  cases hk : groupExists s k with
  | false => rw [deleteGroup_of_missing s k hk]; exact Or.inr rfl
  | true =>
    rw [deleteGroup_of_exists s k hk]
    dsimp only
    rw [JsMap.get_filterKeys]
    split
    · exact Or.inr rfl
    · exact Or.inl rfl

theorem location_none_of_member_none (s : Store) (hs : Inv s) (mid : String)
    (h : getMember s mid = none) : JsMap.get s.locations mid = none := by
  cases hl : JsMap.get s.locations mid with
  | none => rfl
  | some location =>
    have := hs.locationMember _ (JsMap.mem_of_get _ _ _ hl)
    rw [(JsMap.get_eq_none_iff _ _).mp h] at this
    cases this

/-- An expiry sweep leaves a location where it was or removes it. -/
theorem location_cleanupExpiredGroups (s : Store) (now : Int) (k : String) :
    JsMap.get (cleanupExpiredGroups s now).2.locations k = none ∨
      JsMap.get (cleanupExpiredGroups s now).2.locations k = JsMap.get s.locations k := by
  unfold cleanupExpiredGroups
  apply foldl_invariant (fun acc : Nat × Store =>
    JsMap.get acc.2.locations k = none ∨ JsMap.get acc.2.locations k = JsMap.get s.locations k)
  · exact Or.inr rfl
  · intro acc e _ hacc
    split
    · split
      · rcases location_deleteGroup acc.2 e.1 k with h | h
        · exact Or.inl h
        · rcases hacc with h2 | h2
          · exact Or.inl (h.trans h2)
          · exact Or.inr (h.trans h2)
      · exact hacc
    · exact hacc

/-- An inactivity sweep leaves a location where it was or removes it. -/
theorem location_cleanupInactiveMembers (s : Store) (hwf : JsMap.WF s.locations)
    (t : Option Int) (now : Int) (k : String) :
    JsMap.get (cleanupInactiveMembers s t now).2.locations k = none ∨
      JsMap.get (cleanupInactiveMembers s t now).2.locations k = JsMap.get s.locations k := by
  rw [cleanupInactiveMembers_eq s t now hwf]
  dsimp only
  cases hl : JsMap.get s.locations k with
  | none =>
    left
    rw [JsMap.get_eq_none_iff] at hl ⊢
    cases hh : JsMap.has (List.filter (fun e => !e.2.isInactive t now) s.locations) k with
    | false => rfl
    | true =>
      obtain ⟨v, hv⟩ := JsMap.get_of_has _ _ hh
      have hmem := (List.mem_filter.mp (JsMap.mem_of_get _ _ _ hv)).1
      rw [JsMap.has_of_get _ _ _ (JsMap.get_of_mem _ hwf _ _ hmem)] at hl
      cases hl
  | some l =>
    rw [JsMap.get_filter_not _ hwf k l hl (fun e => e.2.isInactive t now)]
    split
    · exact Or.inl rfl
    · exact Or.inr rfl

/-- Every call keeps the store invariant. -/
theorem inv_run (s : Store) (hs : Inv s) (c : Call) : Inv (Call.run s c) := by
  cases c with
  | createGroup name ri ex rnd fuel pos now now2 =>
    simp only [Call.run]
    split
    · rename_i g s' hc
      exact inv_createGroup _ _ _ _ _ _ _ _ _ _ _ hs hc
    · exact hs
  | addMember g m d now => exact inv_addMember _ _ _ _ _ hs
  | updateLocation m g lat lng sh now => exact inv_updateLocation_anyFlag _ _ _ _ _ _ _ hs
  | deleteGroup g => exact inv_deleteGroup _ _ hs
  | cleanupInactiveMembers t now => exact inv_cleanupInactiveMembers _ _ _ hs
  | cleanupExpiredGroups now => exact inv_cleanupExpiredGroups _ _ hs

/-- A call either removes a stored location or leaves under its key a
record with the same `updatedAt`. -/
theorem location_run (s : Store) (hs : Inv s) (c : Call) (k : String) (l : Location)
    (hl : JsMap.get s.locations k = some l) :
    JsMap.get (Call.run s c).locations k = none ∨
      ∃ next, JsMap.get (Call.run s c).locations k = some next ∧
        next.updatedAt = l.updatedAt := by
  cases c with
  | createGroup name ri ex rnd fuel pos now now2 =>
    right
    simp only [Call.run]
    split
    · rename_i g s' hc
      unfold createGroup at hc
      split at hc
      · cases hc
      · unfold createGroup.withId at hc
        split at hc
        · cases hc
        · simp only [Option.some.injEq, Prod.mk.injEq] at hc
          rw [← hc.2]
          exact ⟨l, hl, rfl⟩
    · exact ⟨l, hl, rfl⟩
  | addMember g m d now =>
    right
    refine ⟨l, ?_, rfl⟩
    show JsMap.get (addMember s g m d now).2.locations k = some l
    unfold addMember
    split
    · exact hl
    · exact hl
  | updateLocation m g lat lng sh now =>
    exact Or.inr (updateLocation_anyFlag_location s m g lat lng sh now k l hl)
  | deleteGroup g =>
    rcases location_deleteGroup s g k with h | h
    · exact Or.inl h
    · exact Or.inr ⟨l, h.trans hl, rfl⟩
  | cleanupInactiveMembers t now =>
    rcases location_cleanupInactiveMembers s hs.locationsWF t now k with h | h
    · exact Or.inl h
    · exact Or.inr ⟨l, h.trans hl, rfl⟩
  | cleanupExpiredGroups now =>
    rcases location_cleanupExpiredGroups s now k with h | h
    · exact Or.inl h
    · exact Or.inr ⟨l, h.trans hl, rfl⟩

/-- A location that is stored after every call of a sequence keeps its
`updatedAt` through the sequence. -/
theorem location_runAll (k : String) (calls : List Call) :
    ∀ (s : Store) (l : Location), Inv s → JsMap.get s.locations k = some l →
      (∀ n, n ≤ calls.length →
        JsMap.has (Call.runAll s (calls.take n)).locations k = true) →
      Inv (Call.runAll s calls) ∧
      ∃ last, JsMap.get (Call.runAll s calls).locations k = some last ∧
        last.updatedAt = l.updatedAt := by
  induction calls with
  | nil => exact fun s l hs hl _ => ⟨hs, l, hl, rfl⟩
  | cons c rest ih =>
    intro s l hs hl hkept
    have h1 : JsMap.has (Call.run s c).locations k = true :=
      hkept 1 (Nat.succ_le_succ (Nat.zero_le _))
    rcases location_run s hs c k l hl with hnone | ⟨next, hn, hu⟩
    · rw [(JsMap.get_eq_none_iff _ _).mp hnone] at h1
      cases h1
    · obtain ⟨hI, last, h2, h3⟩ := ih (Call.run s c) next (inv_run s hs c) hn
        (fun n hn2 => hkept (n + 1) (Nat.succ_le_succ hn2))
      exact ⟨hI, last, h2, h3.trans hu⟩

/-- In a well-formed store `deleteGroup(g)` removes a member of `g` and the
location filed under its id. -/
theorem deleteGroup_removes_member (s : Store) (hs : Inv s) (mid : String) (member : Member)
    (h : getMember s mid = none ∨ getMember s mid = some member) :
    getMember (deleteGroup s member.groupId).2 mid = none ∧
    JsMap.get (deleteGroup s member.groupId).2.locations mid = none := by
  rcases h with h | h
  · have hl := location_none_of_member_none s hs mid h
    constructor
    · rcases getMember_deleteGroup s member.groupId mid with h1 | h1
      · exact h1
      · rw [h1, h]
    · rcases location_deleteGroup s member.groupId mid with h1 | h1
      · exact h1
      · rw [h1, hl]
  · have hmem : (mid, member) ∈ s.members := JsMap.mem_of_get _ _ _ h
    have hex : groupExists s member.groupId = true := hs.memberGroup _ hmem
    have hid : member.id = mid := hs.memberKey _ hmem
    have hin : mid ∈ (getGroupMembers s member.groupId).map Member.id := by
      rw [← hid]
      exact List.mem_map_of_mem _ ((mem_getGroupMembers _ _ _).mpr ⟨⟨mid, hmem⟩, rfl⟩)
    rw [deleteGroup_of_exists s _ hex]
    unfold getMember
    dsimp only
    rw [JsMap.get_filterKeys, JsMap.get_filterKeys]
    simp [hin]

/-- The expiry sweep removes the members of a stored group whose expiry is
past, and the locations filed under their ids. -/
theorem cleanupExpiredGroups_removes_member (s : Store) (hs : Inv s) (now : Int)
    (mid : String) (member : Member) (G : Group) (hm : getMember s mid = some member)
    (hG : getGroup s member.groupId = some G) (hexp : G.isExpired now = true) :
    getMember (cleanupExpiredGroups s now).2 mid = none ∧
    JsMap.get (cleanupExpiredGroups s now).2.locations mid = none := by
  unfold cleanupExpiredGroups
  apply foldl_established_inv
    (fun acc : Nat × Store =>
      Inv acc.2 ∧ (getMember acc.2 mid = none ∨ getMember acc.2 mid = some member))
    (fun acc : Nat × Store =>
      getMember acc.2 mid = none ∧ JsMap.get acc.2.locations mid = none)
    _ s.groups (0, s) (member.groupId, G) (JsMap.mem_of_get _ _ _ hG) ⟨hs, Or.inr hm⟩
  · intro acc e hacc
    obtain ⟨hi, hmem⟩ := hacc
    split
    · split
      · refine ⟨inv_deleteGroup _ _ hi, ?_⟩
        rcases getMember_deleteGroup acc.2 e.1 mid with h1 | h1
        · exact Or.inl h1
        · rw [h1]; exact hmem
      · exact ⟨hi, hmem⟩
    · exact ⟨hi, hmem⟩
  · intro acc hacc
    obtain ⟨hi, hmem⟩ := hacc
    unfold Group.isExpired at hexp
    cases hx : G.expiresAt with
    | none => rw [hx] at hexp; cases hexp
    | some x =>
      rw [hx] at hexp
      have hlt : x < now := of_decide_eq_true hexp
      simp only [hx, hlt, if_true]
      exact deleteGroup_removes_member acc.2 hi mid member hmem
  · intro acc e hacc
    obtain ⟨q1, q2⟩ := hacc
    split
    · split
      · constructor
        · rcases getMember_deleteGroup acc.2 e.1 mid with h1 | h1
          · exact h1
          · rw [h1]; exact q1
        · rcases location_deleteGroup acc.2 e.1 mid with h1 | h1
          · exact h1
          · rw [h1]; exact q2
      · exact ⟨q1, q2⟩
    · exact ⟨q1, q2⟩

theorem Scenario.reachable_timedShared : Reachable Scenario.timedShared := by
  have h1 : Reachable Scenario.timedGroup :=
    Reachable.createGroup (g := Scenario.groupTimed) none none (some 2) Scenario.rnd 1 0 1000
      1000 Reachable.empty Scenario.rnd_inUnit Scenario.createGroup_timed
  have h2 := Reachable.updateLocation "m1" "AAAAAA" 37 (-122) none 3000
    (Reachable.addMember "AAAAAA" "m1" "Alice" 2000 h1)
  have e : (updateLocation (addMember Scenario.timedGroup "AAAAAA" "m1" "Alice" 2000).2
      "m1" "AAAAAA" 37 (-122) none 3000).2 = Scenario.timedShared := by decide
  rwa [e] at h2

/-- What the update handler answers once the coordinates have passed its
checks and the member id is a string: the answer follows the outcome of
`updateLocation`, called with the default `true` in place of an omitted
flag. -/
theorem postLocations_of_valid (s : Store) (groupId m : String) (x y : ℚ)
    (sharingEnabled : JsValue) (now : Int) (hm : m ≠ "")
    (hr : ¬ (x < -90 ∨ x > 90 ∨ y < -180 ∨ y > 180)) :
    Routes.postLocations s groupId (.string m) (.number x) (.number y) sharingEnabled now
      = (match updateLocation.anyFlag s m groupId x y
            (if sharingEnabled = JsValue.undefined then JsValue.boolean true
              else sharingEnabled) now with
          | (.returned none, s') =>
            ({ status := 404, body := .error "Member not found in this group" }, s')
          | (.returned (some location), s') =>
            ({ status := 200
               body := .location location.memberId location.lat location.lng
                 location.sharingEnabled location.updatedAt }, s')
          | (.threw, s') =>
            ({ status := 500, body := .error "Failed to update location" }, s')) := by
  unfold Routes.postLocations
  simp only [JsValue.truthy, hm, ne_eq, not_false_eq_true, decide_True, Bool.true_eq_false,
    reduceCtorEq, or_self, if_false, hr, ite_not]

/-- The outcomes of `updateLocation` for a flag that is not `undefined`:
it returns `null` and leaves the store, or it stores a record with the
arguments it was given and then returns it or, when the flag cannot be
converted to a string, throws. -/
theorem updateLocation_anyFlag_cases (s : Store) (m g : String) (lat lng : ℚ) (flag : JsValue)
    (now : Int) (hf : flag ≠ JsValue.undefined) :
    updateLocation.anyFlag s m g lat lng flag now = (.returned none, s) ∨
    ∃ location : Location,
      location.memberId = m ∧ location.lat = lat ∧ location.lng = lng ∧
      location.sharingEnabled = flag ∧
      updateLocation.anyFlag s m g lat lng flag now
        = (if flag.printable = true then .returned (some location) else .threw,
           { s with locations := JsMap.set s.locations m location }) := by
  by_cases h : ∀ member, getMember s m = some member → member.groupId ≠ g
  · exact Or.inl (updateLocation_anyFlag_of_foreign s m g lat lng flag now h)
  · simp only [not_forall, not_not] at h
    obtain ⟨member, hm, hg⟩ := h
    obtain ⟨location, h1, _, h3, h4, h5, _, he⟩ :=
      updateLocation_anyFlag_of_member s m g lat lng flag now member hm hg
    rw [if_neg hf] at h5
    rw [h5] at he
    exact Or.inr ⟨location, h1, h3, h4, h5, he⟩

/-- C14, as stated, fails at two requests to the store in which `m1` is a
member of group `AAAAAA`.  With the empty string as `memberId` and
coordinates in range the handler answers 400, where `updateLocation` would
return `null` and the claim has 404.  With a `sharingEnabled` that is an
object whose conversion to a string throws, and coordinates in range,
`updateLocation` stores the record of `m1` and throws: the handler answers
500, not 200, and the store has changed. -/
theorem postLocations_rejects_empty_memberId_and_fails_on_unprintable_flag :
    (Routes.postLocations Scenario.joined "AAAAAA" (.string "") (.number 37) (.number (-122))
        .undefined 3000
        = ({ status := 400, body := .error "memberId, lat, and lng are required" },
            Scenario.joined) ∧
      (updateLocation Scenario.joined "" "AAAAAA" 37 (-122) none 3000).1 = none) ∧
    (Routes.postLocations Scenario.joined "AAAAAA" (.string "m1") (.number 37) (.number (-122))
        (.object false) 3000
        = ({ status := 500, body := .error "Failed to update location" },
            { Scenario.joined with
              locations := [("m1", { memberId := "m1", groupId := "AAAAAA", lat := 37,
                                     lng := -122, sharingEnabled := .object false,
                                     updatedAt := 3000 })] }) ∧
      (Routes.postLocations Scenario.joined "AAAAAA" (.string "m1") (.number 37)
        (.number (-122)) (.object false) 3000).2 ≠ Scenario.joined) :=
  ⟨⟨by decide, by decide⟩, by decide, by decide⟩

/-- C14, amended: for every store, whose member ids and display names are
strings, and every request whose `memberId` is truthy (not missing, `null`,
`false`, 0 or the empty string).  When `lat` and `lng` are
not both numbers with `lat` in [-90,90] and `lng` in [-180,180] (one is
missing, is not a number, or is out of range), the handler answers 400 and
returns the store it was given.  When they are: for a `memberId` that is
not a string the handler answers 404 and leaves the store; for a string it
calls `updateLocation` with the flag of the body, `true` when omitted, and
its store is the one that call leaves; the answer is 404 when
`updateLocation` returns `null` (the store unchanged), 200 with the
`memberId`, `lat`, `lng`, `sharingEnabled` and `updatedAt` of the record
that `updateLocation` returned and stored, and 500 when `updateLocation`
throws, which it does only after storing the record and only for a flag
whose conversion to a string throws; for every other flag it returns, and
for a boolean flag it is the typed `updateLocation`. -/
theorem postLocations_spec (s : Store) (groupId : String)
    (memberId lat lng sharingEnabled : JsValue) (now : Int) (hm : memberId.truthy = true) :
    ((¬ ∃ x y, lat = JsValue.number x ∧ lng = JsValue.number y ∧
          -90 ≤ x ∧ x ≤ 90 ∧ -180 ≤ y ∧ y ≤ 180) →
      (Routes.postLocations s groupId memberId lat lng sharingEnabled now).1.status = 400 ∧
      (Routes.postLocations s groupId memberId lat lng sharingEnabled now).2 = s) ∧
    (∀ x y, lat = JsValue.number x → lng = JsValue.number y →
      -90 ≤ x → x ≤ 90 → -180 ≤ y → y ≤ 180 →
      ((∀ m, memberId ≠ JsValue.string m) →
        Routes.postLocations s groupId memberId lat lng sharingEnabled now
          = ({ status := 404, body := .error "Member not found in this group" }, s)) ∧
      (∀ m flag, memberId = JsValue.string m →
        flag = (if sharingEnabled = JsValue.undefined then JsValue.boolean true
          else sharingEnabled) →
        (∀ s', updateLocation.anyFlag s m groupId x y flag now = (.returned none, s') →
          s' = s ∧
          Routes.postLocations s groupId memberId lat lng sharingEnabled now
            = ({ status := 404, body := .error "Member not found in this group" }, s)) ∧
        (∀ location s',
          updateLocation.anyFlag s m groupId x y flag now = (.returned (some location), s') →
          Routes.postLocations s groupId memberId lat lng sharingEnabled now
            = ({ status := 200
                 body := .location location.memberId location.lat location.lng
                   location.sharingEnabled location.updatedAt }, s') ∧
          JsMap.get s'.locations m = some location ∧
          location.memberId = m ∧ location.lat = x ∧ location.lng = y ∧
          location.sharingEnabled = flag) ∧
        (∀ s', updateLocation.anyFlag s m groupId x y flag now = (.threw, s') →
          flag.printable = false ∧
          Routes.postLocations s groupId memberId lat lng sharingEnabled now
            = ({ status := 500, body := .error "Failed to update location" }, s') ∧
          ∃ location, JsMap.get s'.locations m = some location ∧
            location.memberId = m ∧ location.lat = x ∧ location.lng = y ∧
            location.sharingEnabled = flag) ∧
        (flag.printable = true →
          ∃ r s', updateLocation.anyFlag s m groupId x y flag now = (.returned r, s')) ∧
        (∀ b, flag = JsValue.boolean b →
          updateLocation.anyFlag s m groupId x y flag now
            = (.returned (updateLocation s m groupId x y (some b) now).1,
                (updateLocation s m groupId x y (some b) now).2)))) := by
  have hmf : ¬ (memberId.truthy = false) := by rw [hm]; exact Bool.noConfusion
  constructor
  · intro hbad
    unfold Routes.postLocations
    by_cases hu : lat = JsValue.undefined ∨ lng = JsValue.undefined
    · rw [if_pos (Or.inr hu)]
      exact ⟨rfl, rfl⟩
    · rw [if_neg (by
        intro hc
        rcases hc with hc | hc
        · exact hmf hc
        · exact hu hc)]
      cases lat <;> cases lng <;> try exact ⟨rfl, rfl⟩
      rename_i x y
      dsimp only
      by_cases hr : x < -90 ∨ x > 90 ∨ y < -180 ∨ y > 180
      · rw [if_pos hr]
        exact ⟨rfl, rfl⟩
      · exfalso
        apply hbad
        refine ⟨x, y, rfl, rfl, ?_⟩
        simp only [not_or, not_lt, gt_iff_lt] at hr
        exact hr
  · intro x y hlat hlng h1 h2 h3 h4
    subst hlat
    subst hlng
    have hr : ¬ (x < -90 ∨ x > 90 ∨ y < -180 ∨ y > 180) := by
      simp only [not_or, not_lt, gt_iff_lt]
      exact ⟨h1, h2, h3, h4⟩
    constructor
    · intro hns
      unfold Routes.postLocations
      rw [if_neg (by
        intro hc
        rcases hc with hc | hc | hc
        · exact hmf hc
        · cases hc
        · cases hc)]
      dsimp only
      rw [if_neg hr]
      cases memberId <;> first | rfl | exact absurd rfl (hns _)
    · intro m flag hmem hflag
      subst hmem
      have hne : m ≠ "" := by
        intro hc
        subst hc
        simp [JsValue.truthy] at hm
      have hfu : flag ≠ JsValue.undefined := by
        rw [hflag]
        split
        · exact fun hc => JsValue.noConfusion hc
        · assumption
      have hpost := postLocations_of_valid s groupId m x y sharingEnabled now hne hr
      rw [← hflag] at hpost
      have hcases := updateLocation_anyFlag_cases s m groupId x y flag now hfu
      refine ⟨?_, ?_, ?_, ?_, ?_⟩
      · intro s' hu
        have hs' : s' = s := by
          rcases hcases with hc | ⟨location, _, _, _, _, hc⟩
          · rw [hc] at hu
            exact (Prod.mk.inj hu).2.symm
          · rw [hc] at hu
            have := (Prod.mk.inj hu).1
            split at this <;> cases this
        refine ⟨hs', ?_⟩
        rw [hpost, hu, hs']
      · intro location s' hu
        refine ⟨by rw [hpost, hu], ?_⟩
        rcases hcases with hc | ⟨l, l1, l2, l3, l4, hc⟩
        · rw [hc] at hu
          cases hu
        · rw [hc] at hu
          obtain ⟨hu1, hu2⟩ := Prod.mk.inj hu
          split at hu1
          · cases hu1
            rw [← hu2]
            exact ⟨JsMap.get_set_self _ _ _, l1, l2, l3, l4⟩
          · cases hu1
      · intro s' hu
        rcases hcases with hc | ⟨l, l1, l2, l3, l4, hc⟩
        · rw [hc] at hu
          cases hu
        · rw [hc] at hu
          obtain ⟨hu1, hu2⟩ := Prod.mk.inj hu
          split at hu1
          · cases hu1
          · rename_i hp
            refine ⟨by simpa using hp, by rw [hpost, hc, if_neg hp, hu2], l, ?_, l1, l2, l3, l4⟩
            rw [← hu2]
            exact JsMap.get_set_self _ _ _
      · intro hp
        rcases hcases with hc | ⟨l, _, _, _, _, hc⟩
        · exact ⟨_, _, hc⟩
        · rw [if_pos hp] at hc
          exact ⟨_, _, hc⟩
      · intro b hb
        rw [hb]
        exact updateLocation_anyFlag_boolean s m groupId x y b now

theorem postLocations_spec_witness :
    (JsValue.string "m1").truthy = true ∧
    ((Routes.postLocations Scenario.joined "AAAAAA" (.string "m1") (.number 91) (.number 0)
        .undefined 3000).1.status = 400 ∧
      (Routes.postLocations Scenario.joined "AAAAAA" (.string "m1") (.number 91) (.number 0)
        .undefined 3000).2 = Scenario.joined) ∧
    ((Routes.postLocations Scenario.joined "AAAAAA" (.string "m1") .null (.number 0)
        .undefined 3000).1.status = 400 ∧
      (Routes.postLocations Scenario.joined "AAAAAA" (.string "m1") .null (.number 0)
        .undefined 3000).2 = Scenario.joined) ∧
    (Scenario.joined = Scenario.joined ∧
      Routes.postLocations Scenario.joined "BBBBBB" (.string "m1") (.number 37)
        (.number (-122)) .undefined 3000
        = ({ status := 404, body := .error "Member not found in this group" },
            Scenario.joined)) ∧
    (Routes.postLocations Scenario.joined "AAAAAA" (.string "m1") (.number 37)
        (.number (-122)) .undefined 3000
        = ({ status := 200, body := .location "m1" 37 (-122) (.boolean true) 3000 },
            Scenario.shared) ∧
      JsMap.get Scenario.shared.locations "m1"
        = some { memberId := "m1", groupId := "AAAAAA", lat := 37, lng := -122,
                 sharingEnabled := .boolean true, updatedAt := 3000 } ∧
      ("m1" : String) = "m1" ∧ (37 : ℚ) = 37 ∧ (-122 : ℚ) = -122 ∧
      JsValue.boolean true = JsValue.boolean true) :=
  ⟨by decide,
    (postLocations_spec Scenario.joined "AAAAAA" (.string "m1") (.number 91) (.number 0)
      .undefined 3000 (by decide)).1
      (by
        rintro ⟨x, y, hx, _, _, h2, _⟩
        cases hx
        norm_num at h2),
    (postLocations_spec Scenario.joined "AAAAAA" (.string "m1") .null (.number 0)
      .undefined 3000 (by decide)).1
      (by
        rintro ⟨x, y, hx, _⟩
        cases hx),
    (((postLocations_spec Scenario.joined "BBBBBB" (.string "m1") (.number 37) (.number (-122))
      .undefined 3000 (by decide)).2 37 (-122) rfl rfl (by norm_num) (by norm_num)
        (by norm_num) (by norm_num)).2 "m1" (.boolean true) rfl (by decide)).1
      Scenario.joined (by decide),
    (((postLocations_spec Scenario.joined "AAAAAA" (.string "m1") (.number 37) (.number (-122))
      .undefined 3000 (by decide)).2 37 (-122) rfl rfl (by norm_num) (by norm_num)
        (by norm_num) (by norm_num)).2 "m1" (.boolean true) rfl (by decide)).2.1
      { memberId := "m1", groupId := "AAAAAA", lat := 37, lng := -122,
        sharingEnabled := .boolean true, updatedAt := 3000 }
      Scenario.shared (by decide)⟩

/-- C15: take a member `m` without a location in a reachable store and a
first `updateLocation` for `m` at clock `T0` that writes the location,
followed by any sequence of calls of the exported functions, with any
arguments and clock readings (updates of `m` and of other members, joins,
creations and deletions of groups, sweeps), after each of which a location
of `m` is stored.  The location stored for `m` at the end still has
`updatedAt = T0`, and `cleanupInactiveMembers(t)` at clock `N` removes it if
and only if `N - T0 > t` (`t` = 300000 when omitted). -/
theorem inactivity_is_measured_from_first_write (s0 : Store) (h0 : Reachable s0)
    (m g : String) (hnone : JsMap.get s0.locations m = none) (lat lng : ℚ)
    (sharingEnabled : JsValue) (T0 : Int) (later : List Call)
    (hkept : ∀ n, n ≤ later.length →
      JsMap.has (Call.runAll (updateLocation.anyFlag s0 m g lat lng sharingEnabled T0).2
        (later.take n)).locations m = true)
    (t : Option Int) (N : Int) :
    (∃ last,
      JsMap.get (Call.runAll (updateLocation.anyFlag s0 m g lat lng sharingEnabled T0).2
        later).locations m = some last ∧
      last.updatedAt = T0) ∧
    (JsMap.get (cleanupInactiveMembers
        (Call.runAll (updateLocation.anyFlag s0 m g lat lng sharingEnabled T0).2 later)
        t N).2.locations m = none ↔ N - T0 > t.getD 300000) := by
  have hs1 := inv_updateLocation_anyFlag s0 m g lat lng sharingEnabled T0 (inv_of_reachable s0 h0)
  have h0k : JsMap.has (updateLocation.anyFlag s0 m g lat lng sharingEnabled T0).2.locations m
      = true := hkept 0 (Nat.zero_le _)
  obtain ⟨first, hf⟩ := JsMap.get_of_has _ _ h0k
  have hT := updateLocation_anyFlag_first s0 m g lat lng sharingEnabled T0 hnone first hf
  obtain ⟨hI, last, l1, l2⟩ := location_runAll m later _ first hs1 hf hkept
  have hu : last.updatedAt = T0 := l2.trans hT
  refine ⟨⟨last, l1, hu⟩, ?_⟩
  rw [cleanupInactiveMembers_eq _ t N hI.locationsWF]
  dsimp only
  rw [JsMap.get_filter_not _ hI.locationsWF m last l1 (fun e => e.2.isInactive t N)]
  unfold Location.isInactive
  simp only [hu, decide_eq_true_eq]
  have e : t.getD (5 * 60 * 1000) = t.getD 300000 := rfl
  rw [e]
  constructor
  · intro h
    by_contra hn
    rw [if_neg hn] at h
    cases h
  · intro h
    rw [if_pos h]

theorem inactivity_is_measured_from_first_write_witness :
    Reachable Scenario.joined ∧
    JsMap.get Scenario.joined.locations "m1" = none ∧
    (∀ n, n ≤ Scenario.later.length →
      JsMap.has (Call.runAll
        (updateLocation.anyFlag Scenario.joined "m1" "AAAAAA" 37 (-122) JsValue.undefined 3000).2
        (Scenario.later.take n)).locations "m1" = true) ∧
    ((∃ last,
        JsMap.get (Call.runAll
          (updateLocation.anyFlag Scenario.joined "m1" "AAAAAA" 37 (-122) JsValue.undefined
            3000).2
          Scenario.later).locations "m1" = some last ∧
        last.updatedAt = 3000) ∧
      (JsMap.get (cleanupInactiveMembers
          (Call.runAll
            (updateLocation.anyFlag Scenario.joined "m1" "AAAAAA" 37 (-122) JsValue.undefined
              3000).2
            Scenario.later)
          none 400001).2.locations "m1" = none
        ↔ (400001 : Int) - 3000 > (none : Option Int).getD 300000)) :=
  ⟨Scenario.reachable_joined, by decide, by decide,
    inactivity_is_measured_from_first_write Scenario.joined Scenario.reachable_joined "m1"
      "AAAAAA" (by decide) 37 (-122) JsValue.undefined 3000 Scenario.later (by decide) none
      400001⟩

/-- C16: in every reachable store, `cleanupExpiredGroups` at clock `N`
returns the number of stored groups whose `expiresAt` is non-null and
earlier than `N`; afterwards each of those groups is gone, every other
stored group is stored with the same record, no other group id is stored,
and every member whose group was removed is gone together with the
location filed under its id. -/
theorem cleanupExpiredGroups_spec (s : Store) (h : Reachable s) (N : Int) :
    (cleanupExpiredGroups s N).1
      = ((JsMap.values s.groups).filter (fun G => G.isExpired N)).length ∧
    (∀ k G, getGroup s k = some G → G.isExpired N = true →
      groupExists (cleanupExpiredGroups s N).2 k = false) ∧
    (∀ k G, getGroup s k = some G → G.isExpired N = false →
      getGroup (cleanupExpiredGroups s N).2 k = some G) ∧
    (∀ k, groupExists s k = false → groupExists (cleanupExpiredGroups s N).2 k = false) ∧
    (∀ mid member G, getMember s mid = some member →
      getGroup s member.groupId = some G → G.isExpired N = true →
      getMember (cleanupExpiredGroups s N).2 mid = none ∧
      JsMap.get (cleanupExpiredGroups s N).2.locations mid = none) := by
  have hs := inv_of_reachable s h
  refine ⟨?_, ?_, ?_, ?_, ?_⟩
  · unfold cleanupExpiredGroups
    rw [cleanupExpiredGroups_loop_count]
    unfold JsMap.values
    rw [List.filter_map, List.length_map]
    simp only [Nat.zero_add]
    rfl
  · intro k G hG hexp
    have hk : G.id = k := hs.groupKey _ (JsMap.mem_of_get _ _ _ hG)
    unfold Group.isExpired at hexp
    cases hx : G.expiresAt with
    | none => rw [hx] at hexp; cases hexp
    | some x =>
      rw [hx] at hexp
      have := cleanupExpiredGroups_removes s G N x (by rw [hk]; exact hG) hx
        (of_decide_eq_true hexp)
      rwa [hk] at this
  · intro k G hG hexp
    have hk : G.id = k := hs.groupKey _ (JsMap.mem_of_get _ _ _ hG)
    have := (cleanupExpiredGroups_keeps s hs G N (by rw [hk]; exact hG)
      (by
        intro x hx hlt
        unfold Group.isExpired at hexp
        rw [hx] at hexp
        have hd : decide (x < N) = false := hexp
        rw [decide_eq_true hlt] at hd
        cases hd)).1
    rwa [hk] at this
  · intro k hk
    unfold cleanupExpiredGroups
    apply foldl_invariant (fun acc : Nat × Store => groupExists acc.2 k = false)
    · exact hk
    · intro acc e _ hacc
      split
      · split
        · exact groupExists_deleteGroup_le _ _ _ hacc
        · exact hacc
      · exact hacc
  · intro mid member G hm hG hexp
    exact cleanupExpiredGroups_removes_member s hs N mid member G hm hG hexp

theorem cleanupExpiredGroups_spec_witness :
    Reachable Scenario.timedShared ∧
    (cleanupExpiredGroups Scenario.timedShared 7201001).1 = 1 ∧
    groupExists (cleanupExpiredGroups Scenario.timedShared 7201001).2 "AAAAAA" = false ∧
    getMember (cleanupExpiredGroups Scenario.timedShared 7201001).2 "m1" = none ∧
    JsMap.get (cleanupExpiredGroups Scenario.timedShared 7201001).2.locations "m1" = none :=
  ⟨Scenario.reachable_timedShared,
    (cleanupExpiredGroups_spec Scenario.timedShared Scenario.reachable_timedShared 7201001).1,
    (cleanupExpiredGroups_spec Scenario.timedShared Scenario.reachable_timedShared 7201001).2.1
      "AAAAAA" Scenario.groupTimed (by decide) (by decide),
    (cleanupExpiredGroups_spec Scenario.timedShared
      Scenario.reachable_timedShared 7201001).2.2.2.2 "m1"
      { id := "m1", groupId := "AAAAAA", displayName := "Alice", createdAt := 2000 }
      Scenario.groupTimed (by decide) (by decide) (by decide)⟩

/-- C17: in every reachable store the missing-member branch of
`getGroupLocations` is never taken: every stored location has a stored
member under its `memberId`.  So the `displayName` of every returned entry
is the `displayName` of that stored member, and an entry shows `"Unknown"`
only when the stored member itself has that display name. -/
theorem getGroupLocations_never_uses_placeholder (s : Store) (h : Reachable s) :
    (∀ e ∈ s.locations, getMember s e.2.memberId ≠ none) ∧
    (∀ g entry, entry ∈ getGroupLocations s g →
      ∃ member, getMember s entry.memberId = some member ∧
        entry.displayName = member.displayName ∧
        (entry.displayName = "Unknown" → member.displayName = "Unknown")) := by
  have hs := inv_of_reachable s h
  constructor
  · intro e he hnone
    obtain ⟨member, hm⟩ := member_of_location s hs e he
    rw [hm] at hnone
    cases hnone
  · intro g entry hentry
    unfold getGroupLocations at hentry
    obtain ⟨location, hl, rfl⟩ := List.mem_map.mp hentry
    obtain ⟨e, he, rfl⟩ := List.mem_map.mp (List.mem_filter.mp hl).1
    obtain ⟨member, hm⟩ := member_of_location s hs e he
    refine ⟨member, hm, ?_, ?_⟩
    · simp only [hm]
    · simp only [hm]
      exact fun hu => hu

theorem getGroupLocations_never_uses_placeholder_witness :
    Reachable Scenario.rejoined ∧
    ((∀ e ∈ Scenario.rejoined.locations, getMember Scenario.rejoined e.2.memberId ≠ none) ∧
     (∀ g entry, entry ∈ getGroupLocations Scenario.rejoined g →
       ∃ member, getMember Scenario.rejoined entry.memberId = some member ∧
         entry.displayName = member.displayName ∧
         (entry.displayName = "Unknown" → member.displayName = "Unknown"))) :=
  ⟨Scenario.reachable_rejoined,
    getGroupLocations_never_uses_placeholder Scenario.rejoined Scenario.reachable_rejoined⟩

/-- C18: in every reachable store `deleteGroup(g)` leaves every group with
another id stored with the same record, every member of another group
stored with the same record, and the location filed under the id of such a
member as it was; and when `groupExists(g)` is false it returns `false`
and the store it was given. -/
theorem deleteGroup_frame (s : Store) (h : Reachable s) (g : String) :
    (∀ k, k ≠ g → getGroup (deleteGroup s g).2 k = getGroup s k) ∧
    (∀ mid member, getMember s mid = some member → member.groupId ≠ g →
      getMember (deleteGroup s g).2 mid = some member ∧
      JsMap.get (deleteGroup s g).2.locations mid = JsMap.get s.locations mid) ∧
    (groupExists s g = false → deleteGroup s g = (false, s)) := by
  have hs := inv_of_reachable s h
  refine ⟨?_, ?_, deleteGroup_of_missing s g⟩
  · intro k hk
    exact getGroup_deleteGroup_of_ne s g k (fun h2 => hk h2.symm)
  · intro mid member hm hne
    have hmem : (mid, member) ∈ s.members := JsMap.mem_of_get _ _ _ hm
    cases hg : groupExists s g with
    | false =>
      rw [deleteGroup_of_missing s g hg]
      exact ⟨hm, rfl⟩
    | true =>
      have hp : (!((getGroupMembers s g).map Member.id).contains mid) = true := by
        cases hc : ((getGroupMembers s g).map Member.id).contains mid with
        | false => rfl
        | true => exact absurd (groupId_of_key_mem_ids s hs g (mid, member) hmem hc) hne
      rw [deleteGroup_of_exists s g hg]
      unfold getMember
      dsimp only
      rw [JsMap.get_filterKeys, JsMap.get_filterKeys, if_pos hp, if_pos hp]
      exact ⟨hm, rfl⟩

theorem deleteGroup_frame_witness :
    Reachable Scenario.rejoined ∧
    (∀ k, k ≠ "AAAAAA" →
      getGroup (deleteGroup Scenario.rejoined "AAAAAA").2 k = getGroup Scenario.rejoined k) ∧
    (getMember (deleteGroup Scenario.rejoined "AAAAAA").2 "m1"
        = some { id := "m1", groupId := "BBBBBB", displayName := "Alice", createdAt := 4000 } ∧
      JsMap.get (deleteGroup Scenario.rejoined "AAAAAA").2.locations "m1"
        = JsMap.get Scenario.rejoined.locations "m1") :=
  ⟨Scenario.reachable_rejoined,
    (deleteGroup_frame Scenario.rejoined Scenario.reachable_rejoined "AAAAAA").1,
    (deleteGroup_frame Scenario.rejoined Scenario.reachable_rejoined "AAAAAA").2.1 "m1"
      { id := "m1", groupId := "BBBBBB", displayName := "Alice", createdAt := 4000 }
      (by decide) (by decide)⟩

/-- C19: for every store and request, the delete handler never answers 500:
it answers 404 and keeps the store when the group is unknown, and otherwise
200 with the store `deleteGroup` leaves, whose result is `true`.  The join
handler never answers 500 either: after `groupExists` returned true
`addMember` returns a member and `getGroup` a group, and a 200 response
carries the supplied member id and display name with the requested group id
as the member's `groupId`. -/
theorem handlers_never_decline_after_existence_check (s : Store) (groupId : String)
    (memberId displayName : Option String) (now : Int) :
    ((Routes.deleteGroup s groupId).1.status ≠ 500 ∧
      (groupExists s groupId = false →
        Routes.deleteGroup s groupId
          = ({ status := 404, body := .error "Group not found" }, s)) ∧
      (groupExists s groupId = true →
        (deleteGroup s groupId).1 = true ∧
        Routes.deleteGroup s groupId
          = ({ status := 200, body := .deleted "Group deleted successfully" },
             (deleteGroup s groupId).2))) ∧
    ((Routes.postJoin s groupId memberId displayName now).1.status ≠ 500 ∧
      ((Routes.postJoin s groupId memberId displayName now).1.status = 200 →
        ∃ m d group, memberId = some m ∧ displayName = some d ∧
          groupExists s groupId = true ∧
          addMember s groupId m d now
            = (some { id := m, groupId := groupId, displayName := d, createdAt := now },
               (Routes.postJoin s groupId memberId displayName now).2) ∧
          getGroup s groupId = some group ∧
          (Routes.postJoin s groupId memberId displayName now).1.body
            = .joined m d groupId group.id group.name group.refreshInterval
                group.expiresAt)) := by
  constructor
  · cases hk : groupExists s groupId with
    | false =>
      have e : Routes.deleteGroup s groupId
          = ({ status := 404, body := .error "Group not found" }, s) := by
        simp [Routes.deleteGroup, hk]
      refine ⟨?_, fun _ => e, fun hc => by cases hc⟩
      rw [e]
      simp
    | true =>
      have e : Routes.deleteGroup s groupId
          = ({ status := 200, body := .deleted "Group deleted successfully" },
             (deleteGroup s groupId).2) := by
        unfold Routes.deleteGroup
        rw [deleteGroup_of_exists s groupId hk]
        simp [hk]
      refine ⟨?_, fun hc => (by cases hc), fun _ => ⟨?_, e⟩⟩
      · rw [e]
        simp
      · rw [deleteGroup_of_exists s groupId hk]
  · cases memberId with
    | none => exact ⟨by simp [Routes.postJoin], by simp [Routes.postJoin]⟩
    | some m =>
      cases displayName with
      | none => exact ⟨by simp [Routes.postJoin], by simp [Routes.postJoin]⟩
      | some d =>
        by_cases hmd : m = "" ∨ d = ""
        · exact ⟨by simp [Routes.postJoin, hmd], by simp [Routes.postJoin, hmd]⟩
        · cases hk : groupExists s groupId with
          | false =>
            exact ⟨by simp [Routes.postJoin, hmd, hk], by simp [Routes.postJoin, hmd, hk]⟩
          | true =>
            have ha : addMember s groupId m d now
                = (some { id := m, groupId := groupId, displayName := d, createdAt := now },
                   { s with members := JsMap.set s.members m ⟨m, groupId, d, now⟩ }) := by
              simp [addMember, hk]
            obtain ⟨group, hgrp⟩ := JsMap.get_of_has _ _ hk
            have hg' : getGroup
                { s with members := JsMap.set s.members m ⟨m, groupId, d, now⟩ }
                groupId = some group := hgrp
            have e : Routes.postJoin s groupId (some m) (some d) now
                = ({ status := 200
                     body := .joined m d groupId group.id group.name group.refreshInterval
                       group.expiresAt },
                   { s with members := JsMap.set s.members m ⟨m, groupId, d, now⟩ }) := by
              unfold Routes.postJoin
              simp only [hmd, if_false, hk, Bool.not_true, Bool.false_eq_true, ha, hg']
            refine ⟨?_, fun _ => ⟨m, d, group, rfl, rfl, rfl, ?_, hgrp, ?_⟩⟩
            · rw [e]
              simp
            · rw [e]
              exact ha
            · rw [e]

end LiveTracker
